import Mathlib

/-!
Verification of FHST-tools (swim team reporting scripts) against its
natural-language specification.  The Python sources `gen_best_times.py`,
`gen_black_ribbons.py` and `gen_all.py` are shallowly embedded below:
pure row-processing functions become Lean functions over lists and
rationals, process exit with a message becomes `Except String`,
and the PDF layout engine becomes a cursor-threading function that emits
a trace of placed items.
-/

namespace FHST

/-! ## gen_black_ribbons.py: CSV column templates -/

def LeadColumns : List String :=
  ["AgeGroup", "AthleteId", "LastName", "FirstName", "LastName_FirstName",
   "Age", "EventDistance", "EventStroke"]

def TailColumns : List String :=
  ["TotalResults", "TotalImproved", "TotalPoints", "AmountImprovedSec",
   "PercentImproved"]

def MeetColumns : List String :=
  ["Name", "Result", "ResultSec", "Improved", "Points", "Date"]

/-- The meet-block column names for `n` meets, block `i` carrying a
`Meet{i}-` name prefix (1-indexed), as generated in both
`gen_black_ribbons.read_data` and `gen_all.validate_black_ribbon_file`. -/
def meetColumnNames (n : ℕ) : List String :=
  (List.range n).flatMap
    (fun i => MeetColumns.map (fun mc => "Meet" ++ toString (i + 1) ++ "-" ++ mc))

/-- The full expected report-card header for `n` meets:
lead columns, then the repeated meet blocks, then tail columns. -/
def expectedBlackRibbonHeader (n : ℕ) : List String :=
  LeadColumns ++ meetColumnNames n ++ TailColumns

/-- Header check of `gen_all.validate_black_ribbon_file` (and, equivalently,
the assertion chain in `gen_black_ribbons.read_data`): the number of meet
columns must be positive and divisible by 6, and each position must equal
the generated expected name.  A positionwise `zip` comparison of two
equal-length lists is plain list equality. -/
def validate_black_ribbon_header (header : List String) : Bool :=
  let nOverhead := LeadColumns.length + TailColumns.length
  if header.length ≤ nOverhead then false
  else
    let nMeetColumns := header.length - nOverhead
    nMeetColumns % MeetColumns.length == 0 &&
      header == expectedBlackRibbonHeader (nMeetColumns / MeetColumns.length)

theorem length_meetColumnNames (n : ℕ) : (meetColumnNames n).length = 6 * n := by
  induction n with
  | zero => rfl
  | succ k ih =>
    unfold meetColumnNames at *
    rw [List.range_succ, List.flatMap_append, List.length_append, ih]
    simp [MeetColumns]
    omega

theorem length_expectedBlackRibbonHeader (n : ℕ) :
    (expectedBlackRibbonHeader n).length = 13 + 6 * n := by
  unfold expectedBlackRibbonHeader
  rw [List.length_append, List.length_append, length_meetColumnNames]
  simp [LeadColumns, TailColumns]
  omega

/-- C4: the repeating-block schema validator accepts a header exactly when it
is the 8 lead names, `n ≥ 1` prefixed 6-name meet blocks, and the 5 tail
names; a column count whose excess over 13 is not a positive multiple of 6
is rejected. -/
theorem validate_black_ribbon_header_spec (header : List String) :
    validate_black_ribbon_header header = true ↔
      ∃ n, 1 ≤ n ∧ header = expectedBlackRibbonHeader n := by
  unfold validate_black_ribbon_header
  constructor
  · intro h
    by_cases hlen : header.length ≤ LeadColumns.length + TailColumns.length
    · simp [hlen] at h
    · simp only [hlen, if_neg, if_false, Bool.and_eq_true, beq_iff_eq] at h
      obtain ⟨hmod, heq⟩ := h
      refine ⟨(header.length - (LeadColumns.length + TailColumns.length)) /
        MeetColumns.length, ?_, heq⟩
      simp only [LeadColumns, TailColumns, MeetColumns, List.length_cons,
        List.length_nil] at hlen hmod ⊢
      omega
  · rintro ⟨n, hn, rfl⟩
    have hlen := length_expectedBlackRibbonHeader n
    have h13 : (LeadColumns.length + TailColumns.length) = 13 := rfl
    have h6 : MeetColumns.length = 6 := rfl
    rw [hlen, h13, h6]
    have hgt : ¬ (13 + 6 * n ≤ 13) := by omega
    simp only [hgt, if_neg, if_false, Bool.and_eq_true, beq_iff_eq]
    constructor
    · omega
    · congr 1
      omega

/-- Witness for C4: the generated two-meet header is accepted. -/
theorem validate_black_ribbon_header_spec_witness :
    validate_black_ribbon_header (expectedBlackRibbonHeader 2) = true :=
  (validate_black_ribbon_header_spec (expectedBlackRibbonHeader 2)).mpr
    ⟨2, by omega, rfl⟩

/-! ## gen_black_ribbons.py: meet selection -/

/-- A meet-directory entry: `none` models Python `None`, `some (name, date)`
models the `(meet_name, date)` pair stored by `read_data`. -/
abbrev MeetEntry := Option (String × String)

/-- `select_latest_meet`: collect the indices holding a meet entry; fail when
fewer than two exist, otherwise return the greatest such index.  `sys.exit(1)`
after the user message is modelled as `Except.error`. -/
def select_latest_meet (meets : List MeetEntry) (src : String) : Except String ℕ :=
  let weeks := (List.range meets.length).filter (fun i => (meets.getD i none).isSome)
  if weeks.length < 2 then
    Except.error ("Sorry:: cannot find any meet data in " ++ src)
  else
    Except.ok (weeks.foldl max 0)

/-- `validate_selected_meet`: the indexing `meets[meet_number]` raises on an
out-of-range index and the `assert` fires on a `None` entry; both are caught
and turned into the "no such meet" exit. -/
def validate_selected_meet (meets : List MeetEntry) (meet_number : ℕ) :
    Except String Unit :=
  match meets[meet_number]? with
  | some (some _) => Except.ok ()
  | _ => Except.error ("Sorry:: there is no meet #" ++ toString meet_number)

theorem foldl_max_mem (l : List ℕ) : ∀ a, l.foldl max a ∈ a :: l := by
  induction l with
  | nil => intro a; simp
  | cons x xs ih =>
    intro a
    rw [List.foldl_cons]
    rcases List.mem_cons.mp (ih (max a x)) with h | h
    · rw [h]
      rcases max_choice a x with hm | hm <;> rw [hm] <;> simp
    · simp [h]

theorem foldl_max_le_init (l : List ℕ) : ∀ a, a ≤ l.foldl max a := by
  induction l with
  | nil => intro a; simp
  | cons y ys ih =>
    intro a
    rw [List.foldl_cons]
    exact le_trans (le_max_left a y) (ih _)

theorem le_foldl_max (l : List ℕ) : ∀ a x, x ∈ l → x ≤ l.foldl max a := by
  induction l with
  | nil => intro a x hx; simp at hx
  | cons y ys ih =>
    intro a x hx
    rw [List.foldl_cons]
    rcases List.mem_cons.mp hx with h | h
    · subst h
      exact le_trans (le_max_right a x) (foldl_max_le_init ys _)
    · exact ih _ x h

theorem two_mem_of_nodup_two_le (l : List ℕ) (hnd : l.Nodup) (hlen : 2 ≤ l.length) :
    ∃ x y, x ∈ l ∧ y ∈ l ∧ x ≠ y := by
  match l, hlen with
  | x :: y :: rest, _ =>
    refine ⟨x, y, by simp, by simp, ?_⟩
    simp only [List.nodup_cons, List.mem_cons] at hnd
    tauto

/-- C5: meet selection and validation.  Automatic selection returns the
highest index with a meet entry and errors out exactly when fewer than two
indices have entries; explicit validation errors out with the "no such meet"
message exactly when the index is out of range or has no entry. -/
theorem meet_selection_spec (meets : List MeetEntry) (src : String) :
    (∀ m, select_latest_meet meets src = Except.ok m →
        m < meets.length ∧ (meets.getD m none).isSome = true ∧
        ∀ i, i < meets.length → (meets.getD i none).isSome = true → i ≤ m)
  ∧ ((∃ e, select_latest_meet meets src = Except.error e) ↔
        ((List.range meets.length).filter
          (fun i => (meets.getD i none).isSome)).length < 2)
  ∧ (∀ k, (∃ e, validate_selected_meet meets k = Except.error e) ↔
        (meets.length ≤ k ∨ meets.getD k none = none))
  ∧ (∀ k e, validate_selected_meet meets k = Except.error e →
        e = "Sorry:: there is no meet #" ++ toString k) := by
  refine ⟨?_, ?_, ?_, ?_⟩
  · intro m hm
    unfold select_latest_meet at hm
    by_cases hlen : ((List.range meets.length).filter
        (fun i => (meets.getD i none).isSome)).length < 2
    · simp only [hlen, if_pos] at hm
      exact Except.noConfusion hm
    · simp only [hlen, if_neg, if_false, Except.ok.injEq] at hm
      obtain ⟨x, y, hx, hy, hxy⟩ := two_mem_of_nodup_two_le
        ((List.range meets.length).filter (fun i => (meets.getD i none).isSome))
        ((List.nodup_range _).filter _) (by omega)
      have hxm := le_foldl_max
        ((List.range meets.length).filter (fun i => (meets.getD i none).isSome))
        0 x hx
      have hym := le_foldl_max
        ((List.range meets.length).filter (fun i => (meets.getD i none).isSome))
        0 y hy
      rw [hm] at hxm hym
      have hmpos : 1 ≤ m := by omega
      have hmem := foldl_max_mem ((List.range meets.length).filter
        (fun i => (meets.getD i none).isSome)) 0
      rw [hm] at hmem
      have hmw : m ∈ (List.range meets.length).filter
          (fun i => (meets.getD i none).isSome) := by
        rcases List.mem_cons.mp hmem with h0 | h
        · omega
        · exact h
      have hmr := List.mem_filter.mp hmw
      refine ⟨List.mem_range.mp hmr.1, by simpa using hmr.2, ?_⟩
      intro i hi hsome
      have hiw : i ∈ (List.range meets.length).filter
          (fun i => (meets.getD i none).isSome) :=
        List.mem_filter.mpr ⟨List.mem_range.mpr hi, by simpa using hsome⟩
      have := le_foldl_max _ 0 i hiw
      omega
  · constructor
    · rintro ⟨e, he⟩
      unfold select_latest_meet at he
      by_cases hlen : ((List.range meets.length).filter
          (fun i => (meets.getD i none).isSome)).length < 2
      · exact hlen
      · rw [if_neg hlen] at he
        exact Except.noConfusion he
    · intro hlen
      exact ⟨_, by unfold select_latest_meet; rw [if_pos hlen]⟩
  · intro k
    unfold validate_selected_meet
    constructor
    · rintro ⟨e, he⟩
      match hk : meets[k]? with
      | some (some v) => rw [hk] at he; simp at he
      | some none =>
        right
        rw [List.getD_eq_getElem?_getD, hk]
        rfl
      | none =>
        left
        exact List.getElem?_eq_none_iff.mp hk
    · intro h
      match hk : meets[k]? with
      | some (some v) =>
        exfalso
        rcases h with h | h
        · rw [List.getElem?_eq_none_iff.mpr h] at hk
          simp at hk
        · rw [List.getD_eq_getElem?_getD, hk] at h
          simp at h
      | some none => exact ⟨_, rfl⟩
      | none => exact ⟨_, rfl⟩
  · intro k e he
    unfold validate_selected_meet at he
    match hk : meets[k]? with
    | some (some v) => rw [hk] at he; simp at he
    | some none => rw [hk] at he; simpa using he.symm
    | none => rw [hk] at he; simpa using he.symm

/-- Witness for C5: with entries at indices 0 and 2 only, automatic selection
picks index 2, and validating the absent index 1 yields the error. -/
theorem meet_selection_spec_witness :
    (2 : ℕ) < 3 ∧
    ([some ("A", "d1"), none, some ("B", "d2")].getD 2 none).isSome = true := by
  have h := (meet_selection_spec
    [some ("A", "d1"), none, some ("B", "d2")] "src.csv").1 2 (by rfl)
  exact ⟨h.1, h.2.1⟩

/-- C10 (implicit): a successful automatic selection never returns the
sentinel index 0, because two distinct indices with data exist and the
greatest of them is therefore at least 1. -/
theorem select_latest_meet_pos (meets : List MeetEntry) (src : String) (m : ℕ)
    (hm : select_latest_meet meets src = Except.ok m) : 1 ≤ m := by
  unfold select_latest_meet at hm
  by_cases hlen : ((List.range meets.length).filter
      (fun i => (meets.getD i none).isSome)).length < 2
  · simp only [hlen, if_pos] at hm
    exact Except.noConfusion hm
  · simp only [hlen, if_neg, if_false, Except.ok.injEq] at hm
    obtain ⟨x, y, hx, hy, hxy⟩ := two_mem_of_nodup_two_le
      ((List.range meets.length).filter (fun i => (meets.getD i none).isSome))
      ((List.nodup_range _).filter _) (by omega)
    have hxm := le_foldl_max
      ((List.range meets.length).filter (fun i => (meets.getD i none).isSome))
      0 x hx
    have hym := le_foldl_max
      ((List.range meets.length).filter (fun i => (meets.getD i none).isSome))
      0 y hy
    rw [hm] at hxm hym
    omega

/-- Witness for C10: index 0 and index 1 both have data; the selected meet is
still at least 1. -/
theorem select_latest_meet_pos_witness : 1 ≤ 1 :=
  select_latest_meet_pos [some ("A", "d1"), some ("B", "d2")] "src.csv" 1 (by rfl)

/-! ## gen_black_ribbons.py: label derivation -/

/-- One meet block of a report-card row.  The `ResultSec` cell is modelled as
`Option ℚ`: `none` for the empty string (falsy in the Python truthiness
test), `some q` for a non-empty string parsing to the number `q`. -/
structure MeetCell where
  name : String
  result : String
  resultSec : Option ℚ
  improved : String
  points : String
  date : String
deriving DecidableEq

def emptyMeetCell : MeetCell := ⟨"", "", none, "", "", ""⟩

/-- A parsed athlete report-card row: the 8 lead fields followed by the
per-meet blocks (tail aggregate columns are ignored by the label logic). -/
structure AthleteLine where
  ageGroup : String
  athleteId : String
  lastName : String
  firstName : String
  lastFirst : String
  age : String
  distance : String
  stroke : String
  meets : List MeetCell
deriving DecidableEq

/-- The label dictionary returned by `gen_unformatted_label`. -/
structure Label where
  meet : ℕ
  swimmer : String
  age_group : String
  distance : String
  stroke : String
  new_time : ℚ
  time_drop : ℚ
deriving DecidableEq

/-- `times` in `gen_unformatted_label`: the `ResultSec` cells of meet blocks
`0..meet` inclusive. -/
def label_times (line : AthleteLine) (meet : ℕ) : List (Option ℚ) :=
  (line.meets.take (meet + 1)).map (fun c => c.resultSec)

/-- `gen_unformatted_label`: no label when the target meet has no time, no
label when no prior non-empty time exists, no label when the meet time does
not beat the minimum prior time; otherwise the improvement label. -/
def gen_unformatted_label (line : AthleteLine) (meet : ℕ) : Option Label :=
  match (label_times line meet).getLastD none with
  | none => none
  | some meet_time =>
    match ((label_times line meet).dropLast.filterMap id).min? with
    | none => none
    | some prior_best =>
      if prior_best ≤ meet_time then none
      else
        some { meet := meet,
               swimmer := line.firstName ++ " " ++ line.lastName ++
                 " (" ++ line.age ++ ")",
               age_group := line.ageGroup,
               distance := line.distance,
               stroke := line.stroke,
               new_time := meet_time,
               time_drop := prior_best - meet_time }

/-- `gen_unformatted_labels`: keep the rows that produced a label. -/
def gen_unformatted_labels (data : List AthleteLine) (meet : ℕ) : List Label :=
  data.filterMap (fun line => gen_unformatted_label line meet)

theorem label_times_getLastD (line : AthleteLine) (M : ℕ)
    (hM : M < line.meets.length) :
    (label_times line M).getLastD none =
      (line.meets.getD M emptyMeetCell).resultSec := by
  unfold label_times
  rw [List.getLastD_eq_getLast?, List.getLast?_eq_getElem?]
  have hlen : ((line.meets.take (M + 1)).map (fun c => c.resultSec)).length
      = M + 1 := by
    simp [List.length_take]
    omega
  rw [hlen]
  simp only [Nat.add_sub_cancel]
  rw [List.getElem?_map, List.getElem?_take_of_lt (by omega),
    List.getElem?_eq_getElem hM]
  rw [List.getD_eq_getElem?_getD, List.getElem?_eq_getElem hM]
  rfl

theorem label_times_dropLast (line : AthleteLine) (M : ℕ)
    (hM : M < line.meets.length) :
    (label_times line M).dropLast =
      (line.meets.take M).map (fun c => c.resultSec) := by
  unfold label_times
  rw [← List.map_dropLast]
  congr 1
  rw [List.dropLast_eq_take, List.length_take,
    Nat.min_eq_left (by omega : M + 1 ≤ line.meets.length),
    Nat.add_sub_cancel, List.take_take,
    Nat.min_eq_left (by omega : M ≤ M + 1)]

/-- C1: a label is emitted iff meet `M`'s time cell is non-empty, some prior
non-empty time exists, and the meet time strictly beats the minimum prior
time; the emitted label carries `new_time` = meet time and
`time_drop` = prior best − meet time, which is strictly positive. -/
theorem gen_unformatted_label_spec (line : AthleteLine) (M : ℕ)
    (hM : M < line.meets.length) :
    ((gen_unformatted_label line M).isSome = true ↔
      ∃ t pb, (line.meets.getD M emptyMeetCell).resultSec = some t ∧
        (((line.meets.take M).map (fun c => c.resultSec)).filterMap id).min?
          = some pb ∧ t < pb)
  ∧ (∀ lab, gen_unformatted_label line M = some lab →
      ∃ t pb, (line.meets.getD M emptyMeetCell).resultSec = some t ∧
        (((line.meets.take M).map (fun c => c.resultSec)).filterMap id).min?
          = some pb ∧
        lab.new_time = t ∧ lab.time_drop = pb - t ∧ 0 < lab.time_drop) := by
  have hL := label_times_getLastD line M hM
  have hD := label_times_dropLast line M hM
  rw [← hL, ← hD]
  unfold gen_unformatted_label
  match hmt : (label_times line M).getLastD none with
  | none =>
    constructor
    · constructor
      · intro h; simp at h
      · rintro ⟨t, pb, ht, _⟩; exact Option.noConfusion ht
    · intro lab h; simp at h
  | some t =>
    match hpb : ((label_times line M).dropLast.filterMap id).min? with
    | none =>
      constructor
      · constructor
        · intro h; simp at h
        · rintro ⟨t', pb, ht, hpb', _⟩; exact Option.noConfusion hpb'
      · intro lab h; simp at h
    | some pb =>
      by_cases hle : pb ≤ t
      · constructor
        · constructor
          · intro h; simp [hle] at h
          · rintro ⟨t', pb', ht, hpb', hlt⟩
            rw [Option.some.injEq] at ht hpb'
            subst ht; subst hpb'
            exact absurd hlt (not_lt.mpr hle)
        · intro lab h; simp [hle] at h
      · constructor
        · constructor
          · intro _
            exact ⟨t, pb, rfl, rfl, not_le.mp hle⟩
          · intro _; simp [hle]
        · intro lab h
          simp only [hle, if_neg, if_false, Option.some.injEq] at h
          refine ⟨t, pb, rfl, rfl, ?_, ?_, ?_⟩
          · rw [← h]
          · rw [← h]
          · rw [← h]
            exact sub_pos.mpr (not_le.mp hle)

/-- Sample report-card row used as the C1 witness input: prior times 3210
and 3180 (hundredths of a second), new meet time 3150 — the shape of the
worked example in the spec. -/
def sampleMeets : List MeetCell :=
  [⟨"M1", "32.10", some 3210, "1", "6", "6/1"⟩,
   ⟨"M2", "31.80", some 3180, "1", "6", "6/8"⟩,
   ⟨"M3", "31.50", some 3150, "1", "6", "6/15"⟩]

def sampleLine : AthleteLine :=
  ⟨"Girls 9-10", "1", "Doe", "Jo", "Doe_Jo", "9", "50", "free", sampleMeets⟩

/-- Witness for C1: on the sample row the emitted-label conditions hold. -/
theorem gen_unformatted_label_spec_witness :
    ∃ t pb, (sampleLine.meets.getD 2 emptyMeetCell).resultSec = some t ∧
      (((sampleLine.meets.take 2).map (fun c => c.resultSec)).filterMap id).min?
        = some pb ∧ t < pb :=
  ((gen_unformatted_label_spec sampleLine 2 (by decide)).1).mp (by rfl)

/-! ## gen_best_times.py: MCSL events data and CSV schema -/

def ExpectedColumns : List String :=
  ["AgeGroup", "FirstName", "LastName", "Age", "Event",
   "Time", "ConvertedTime", "ConvertedHundredths", "Date", "SwimMeet"]

def _AgeGroups : List String :=
  ["Girls 8 & Under", "Boys 8 & Under", "Girls 9-10", "Boys 9-10",
   "Girls 11-12", "Boys 11-12", "Girls 13-14", "Boys 13-14",
   "Women 15-18", "Men 15-18"]

def _EventNames : List String :=
  ["Freestyle", "Backstroke", "Breaststroke", "Butterfly", "Individual Medley"]

def _EventDistances : List (String × List ℕ) :=
  [("Freestyle", [25, 50, 100]), ("Backstroke", [25, 50, 100]),
   ("Breaststroke", [25, 50, 100]), ("Butterfly", [25, 50]),
   ("Individual Medley", [100])]

def _AgeDistances : List (String × List ℕ) :=
  [("Girls 8 & Under", [25, 25, 25, 25, 100]),
   ("Boys 8 & Under", [25, 25, 25, 25, 100]),
   ("Girls 9-10", [50, 25, 25, 25, 100]),
   ("Boys 9-10", [50, 25, 25, 25, 100]),
   ("Girls 11-12", [50, 50, 50, 50, 100]),
   ("Boys 11-12", [50, 50, 50, 50, 100]),
   ("Girls 13-14", [50, 50, 50, 50, 100]),
   ("Boys 13-14", [50, 50, 50, 50, 100]),
   ("Women 15-18", [100, 100, 100, 50, 100]),
   ("Men 15-18", [100, 100, 100, 50, 100])]

/-- The `f"{d} {e}"` event label. -/
def eventLabel (d : ℕ) (e : String) : String := toString d ++ " " ++ e

def _AgeEvents : List (String × List String) :=
  _AgeGroups.map (fun ag =>
    (ag, List.zipWith (fun e d => eventLabel d e) _EventNames
      ((_AgeDistances.lookup ag).getD [])))

def _AllEvents : List String :=
  _EventNames.flatMap (fun e =>
    ((_EventDistances.lookup e).getD []).map (fun d => eventLabel d e))

/-! ## gen_best_times.py: data parsing and report building -/

/-- A `(swimmer, time, date)` result entry, time in seconds. -/
abbrev Entry := String × ℚ × String

/-- A best-times CSV row, holding the fields that `read_data` destructures
(the `ConvertedHundredths` cell already parsed as an integer, as `int(time)`
does). -/
structure BTRow where
  ageGroup : String
  firstName : String
  lastName : String
  age : String
  event : String
  timeHundredths : ℕ
  date : String
deriving DecidableEq

abbrev EventMap := List (String × List Entry)
abbrev BTData := List (String × EventMap)

/-- Python dict assignment `d[k] = f(d[k])` on an association list with
unique keys. -/
def dictUpdate {β : Type} (d : List (String × β)) (k : String) (f : β → β) :
    List (String × β) :=
  d.map (fun p => if p.1 == k then (p.1, f p.2) else p)

/-- `data = {ag: {e: list() for e in _AgeEvents[ag]} for ag in _AgeGroups}` -/
def initialData : BTData :=
  _AgeEvents.map (fun p => (p.1, p.2.map (fun e => (e, ([] : List Entry)))))

def swimUpMsg (event ag : String) : String :=
  "Swim up is adding " ++ event ++ " to " ++ ag

def mkSwimmer (row : BTRow) : String :=
  row.firstName ++ " " ++ row.lastName ++ " (" ++ row.age ++ ")"

/-- The tuple appended to `data[age_group][event]`: display label, seconds
(`int(time)/100`), date. -/
def mkEntry (row : BTRow) : Entry :=
  (mkSwimmer row, (row.timeHundredths : ℚ) / 100, row.date)

/-- `data[age_group][event] = list()` for a yet-unknown event key. -/
def addEventKey (data : BTData) (ag e : String) : BTData :=
  dictUpdate data ag (fun evs => evs ++ [(e, [])])

/-- `data[age_group][event].append(entry)`. -/
def appendEntry (data : BTData) (ag e : String) (x : Entry) : BTData :=
  dictUpdate data ag (fun evs => dictUpdate evs e (fun l => l ++ [x]))

/-- The per-row loop of `gen_best_times.read_data`: an age group outside the
closed enumeration aborts the whole parse (the uncaught `AssertionError`
carries the offending value and exits the process non-zero, so no partial
result is produced); a missing event key is a swim-up — the notice is
recorded and the key added; the row's entry is then appended. -/
def read_rows : List BTRow → BTData → List String →
    Except String (List String × BTData)
  | [], data, warns => Except.ok (warns, data)
  | row :: rest, data, warns =>
    if row.ageGroup ∈ _AgeGroups then
      if (data.lookup row.ageGroup).isSome then
        let wd :=
          if (((data.lookup row.ageGroup).getD []).lookup row.event).isSome then
            (warns, data)
          else
            (warns ++ [swimUpMsg row.event row.ageGroup],
             addEventKey data row.ageGroup row.event)
        read_rows rest (appendEntry wd.2 row.ageGroup row.event (mkEntry row)) wd.1
      else Except.error ("Unrecognized age_group: " ++ row.ageGroup)
    else Except.error ("Unrecognized age group in data: " ++ row.ageGroup)

/-- `sorted(data, key=lambda x: x[1])`: Python's stable ascending sort by
elapsed time, modelled by the stable `List.mergeSort`. -/
def gen_unformatted_swimmers (data : List Entry) : List Entry :=
  data.mergeSort (fun a b => decide (a.2.1 ≤ b.2.1))

/-- `[(e, gen_unformatted_swimmers(data[e])) for e in _AllEvents if e in data]` -/
def gen_unformatted_events (data : EventMap) : EventMap :=
  (_AllEvents.filter (fun e => (data.lookup e).isSome)).map
    (fun e => (e, gen_unformatted_swimmers ((data.lookup e).getD [])))

/-- `[(ag, gen_unformatted_events(data[ag])) for ag in _AgeGroups]` -/
def gen_unformatted_report (data : BTData) : List (String × EventMap) :=
  _AgeGroups.map (fun ag =>
    (ag, gen_unformatted_events ((data.lookup ag).getD [])))

/-- Whether the generated outline contains a header pair (age group, event). -/
def reportHasHeader (report : List (String × EventMap)) (ag e : String) : Bool :=
  report.any (fun p => p.1 == ag && p.2.any (fun q => q.1 == e))

/-- C7: within an event the swimmer rows are a permutation of the input rows,
in non-decreasing time order, and rows with exactly equal times keep their
original relative order (stability, stated as preservation of every
equal-time fibre). -/
theorem gen_unformatted_swimmers_spec (l : List Entry) :
    (gen_unformatted_swimmers l).Perm l
  ∧ List.Pairwise (fun a b : Entry => a.2.1 ≤ b.2.1) (gen_unformatted_swimmers l)
  ∧ ∀ t : ℚ, (gen_unformatted_swimmers l).filter (fun x => decide (x.2.1 = t))
      = l.filter (fun x => decide (x.2.1 = t)) := by
  have htrans : ∀ a b c : Entry, (fun a b : Entry => decide (a.2.1 ≤ b.2.1)) a b →
      (fun a b : Entry => decide (a.2.1 ≤ b.2.1)) b c →
      (fun a b : Entry => decide (a.2.1 ≤ b.2.1)) a c := by
    intro a b c hab hbc
    simp only [decide_eq_true_eq] at hab hbc ⊢
    exact le_trans hab hbc
  have htotal : ∀ a b : Entry, ((fun a b : Entry => decide (a.2.1 ≤ b.2.1)) a b ||
      (fun a b : Entry => decide (a.2.1 ≤ b.2.1)) b a) = true := by
    intro a b
    simp only [Bool.or_eq_true, decide_eq_true_eq]
    exact le_total _ _
  refine ⟨List.mergeSort_perm l _, ?_, ?_⟩
  · have := List.sorted_mergeSort htrans htotal l
    exact this.imp (fun h => by simpa using h)
  · intro t
    have hsub : List.Sublist (l.filter (fun x => decide (x.2.1 = t))) l :=
      List.filter_sublist l
    have hpw : (l.filter (fun x => decide (x.2.1 = t))).Pairwise
        (fun a b : Entry => decide (a.2.1 ≤ b.2.1) = true) := by
      apply List.pairwise_of_forall_mem_list
      intro a ha b hb
      have ha' := List.mem_filter.mp ha
      have hb' := List.mem_filter.mp hb
      simp only [decide_eq_true_eq] at ha' hb' ⊢
      rw [ha'.2, hb'.2]
    have hstab := List.sublist_mergeSort htrans htotal hpw hsub
    have hperm : List.Perm ((List.mergeSort l
          (fun a b : Entry => decide (a.2.1 ≤ b.2.1))).filter
          (fun x => decide (x.2.1 = t)))
        (l.filter (fun x => decide (x.2.1 = t))) :=
      (List.mergeSort_perm l _).filter _
    have hsub2 : List.Sublist (l.filter (fun x => decide (x.2.1 = t)))
        ((List.mergeSort l (fun a b : Entry => decide (a.2.1 ≤ b.2.1))).filter
          (fun x => decide (x.2.1 = t))) := by
      have hidem : (l.filter (fun x => decide (x.2.1 = t))).filter
          (fun x => decide (x.2.1 = t)) = l.filter (fun x => decide (x.2.1 = t)) :=
        List.filter_eq_self.mpr (by
          intro a ha
          exact (List.mem_filter.mp ha).2)
      have := hstab.filter (fun x => decide (x.2.1 = t))
      rwa [hidem] at this
    exact (hsub2.eq_of_length hperm.length_eq.symm).symm

/-! ## Association-list dictionary lemmas for the parser state -/

/-- `data[ag]`: the event map of an age group (empty when the key is absent,
which the parser never lets happen for valid age groups). -/
def eventsOf (data : BTData) (ag : String) : EventMap :=
  (data.lookup ag).getD []

/-- `data[ag][e]`: the entry list of an (age group, event) pair. -/
def entriesOf (data : BTData) (ag e : String) : List Entry :=
  ((eventsOf data ag).lookup e).getD []

theorem lookup_dictUpdate {β : Type} (k k' : String) (f : β → β) :
    ∀ d : List (String × β),
      (dictUpdate d k f).lookup k' =
        if k' = k then (d.lookup k').map f else d.lookup k'
  | [] => by by_cases h : k' = k <;> simp [dictUpdate, h]
  | (a, b) :: ps => by
    have ih := lookup_dictUpdate k k' f ps
    show (((if a == k then (a, f b) else (a, b))) :: dictUpdate ps k f).lookup k' = _
    by_cases hkk : k' = k
    · rw [if_pos hkk]
      by_cases hak : a = k
      · subst hak
        rw [if_pos (by simp)]
        have hb : (k' == a) = true := by simp [hkk]
        rw [List.lookup_cons, List.lookup_cons, hb]
        rfl
      · rw [if_neg (by simp [hak])]
        have hb : (k' == a) = false := by
          simp only [beq_eq_false_iff_ne, ne_eq]
          intro h
          exact hak (h.symm.trans hkk)
        rw [List.lookup_cons, List.lookup_cons, hb]
        show List.lookup k' (dictUpdate ps k f) = Option.map f (List.lookup k' ps)
        rw [ih, if_pos hkk]
    · rw [if_neg hkk]
      by_cases hka : k' = a
      · subst hka
        rw [if_neg (by simp [hkk])]
        rw [List.lookup_cons, List.lookup_cons]
        simp
      · have hb : (k' == a) = false := by simp [hka]
        by_cases hak : a = k
        · subst hak
          rw [if_pos (by simp)]
          rw [List.lookup_cons, List.lookup_cons, hb]
          show List.lookup k' (dictUpdate ps a f) = List.lookup k' ps
          rw [ih, if_neg hkk]
        · rw [if_neg (by simp [hak])]
          rw [List.lookup_cons, List.lookup_cons, hb]
          show List.lookup k' (dictUpdate ps k f) = List.lookup k' ps
          rw [ih, if_neg hkk]

theorem lookup_map_pair {β : Type} (g : String → β) (k : String) :
    ∀ l : List String,
      (l.map (fun a => (a, g a))).lookup k = if k ∈ l then some (g k) else none
  | [] => by simp
  | a :: as => by
    have ih := lookup_map_pair g k as
    by_cases h : k = a
    · subst h
      simp [List.lookup_cons]
    · have : (k == a) = false := by simp [h]
      simp only [List.map_cons, List.lookup_cons, this, cond_false, ih,
        List.mem_cons]
      by_cases hm : k ∈ as <;> simp [hm, h]

theorem lookup_addEventKey (data : BTData) (ag e ag' : String) :
    (addEventKey data ag e).lookup ag' =
      if ag' = ag then (data.lookup ag').map (fun evs => evs ++ [(e, [])])
      else data.lookup ag' :=
  lookup_dictUpdate ag ag' _ data

theorem lookup_appendEntry (data : BTData) (ag e : String) (x : Entry)
    (ag' : String) :
    (appendEntry data ag e x).lookup ag' =
      if ag' = ag then
        (data.lookup ag').map (fun evs => dictUpdate evs e (fun l => l ++ [x]))
      else data.lookup ag' :=
  lookup_dictUpdate ag ag' _ data

theorem groupKeys_addEventKey (data : BTData) (ag e ag' : String) :
    ((addEventKey data ag e).lookup ag').isSome = (data.lookup ag').isSome := by
  rw [lookup_addEventKey]
  by_cases h : ag' = ag <;> simp [h]

theorem groupKeys_appendEntry (data : BTData) (ag e : String) (x : Entry)
    (ag' : String) :
    ((appendEntry data ag e x).lookup ag').isSome = (data.lookup ag').isSome := by
  rw [lookup_appendEntry]
  by_cases h : ag' = ag <;> simp [h]

theorem eventsOf_addEventKey_ne (data : BTData) (ag e ag' : String)
    (hne : ag' ≠ ag) :
    eventsOf (addEventKey data ag e) ag' = eventsOf data ag' := by
  unfold eventsOf
  rw [lookup_addEventKey, if_neg hne]

theorem eventsOf_addEventKey_self (data : BTData) (ag e : String)
    (hs : (data.lookup ag).isSome = true) :
    eventsOf (addEventKey data ag e) ag = eventsOf data ag ++ [(e, [])] := by
  unfold eventsOf
  rw [lookup_addEventKey, if_pos rfl]
  obtain ⟨evs, hevs⟩ := Option.isSome_iff_exists.mp hs
  rw [hevs]
  rfl

theorem eventsOf_appendEntry_ne (data : BTData) (ag e : String) (x : Entry)
    (ag' : String) (hne : ag' ≠ ag) :
    eventsOf (appendEntry data ag e x) ag' = eventsOf data ag' := by
  unfold eventsOf
  rw [lookup_appendEntry, if_neg hne]

theorem eventsOf_appendEntry_self (data : BTData) (ag e : String) (x : Entry)
    (hs : (data.lookup ag).isSome = true) :
    eventsOf (appendEntry data ag e x) ag =
      dictUpdate (eventsOf data ag) e (fun l => l ++ [x]) := by
  unfold eventsOf
  rw [lookup_appendEntry, if_pos rfl]
  obtain ⟨evs, hevs⟩ := Option.isSome_iff_exists.mp hs
  rw [hevs]
  rfl

theorem eventsOf_empty_of_none (data : BTData) (ag : String)
    (h : (data.lookup ag).isSome = false) : eventsOf data ag = [] := by
  unfold eventsOf
  cases hl : data.lookup ag with
  | none => rfl
  | some v => rw [hl] at h; simp at h

theorem entriesOf_addEventKey (data : BTData) (ag e ag' e' : String) :
    entriesOf (addEventKey data ag e) ag' e' = entriesOf data ag' e' ∨
      entriesOf data ag' e' = [] := by
  by_cases hag : ag' = ag
  · subst hag
    unfold entriesOf eventsOf
    rw [lookup_addEventKey, if_pos rfl]
    cases hl : data.lookup ag' with
    | none => left; rfl
    | some evs =>
      simp only [Option.map_some', Option.getD_some]
      rw [List.lookup_append]
      cases hevl : evs.lookup e' with
      | some l => left; rfl
      | none => right; rfl
  · left
    unfold entriesOf
    rw [eventsOf_addEventKey_ne data ag e ag' hag]

theorem entriesOf_appendEntry (data : BTData) (ag e : String) (x : Entry)
    (ag' e' : String) :
    entriesOf (appendEntry data ag e x) ag' e' = entriesOf data ag' e' ∨
      entriesOf (appendEntry data ag e x) ag' e' = entriesOf data ag' e' ++ [x] := by
  by_cases hag : ag' = ag
  · subst hag
    unfold entriesOf eventsOf
    rw [lookup_appendEntry, if_pos rfl]
    cases hl : data.lookup ag' with
    | none => left; rfl
    | some evs =>
      simp only [Option.map_some', Option.getD_some]
      rw [lookup_dictUpdate]
      by_cases he : e' = e
      · rw [if_pos he]
        cases hevl : evs.lookup e' with
        | none => left; rfl
        | some l => right; rfl
      · left
        rw [if_neg he]
  · left
    unfold entriesOf
    rw [eventsOf_appendEntry_ne data ag e x ag' hag]

theorem mem_entriesOf_addEventKey (data : BTData) (ag e ag' e' : String)
    (x : Entry) (hx : x ∈ entriesOf data ag' e') :
    x ∈ entriesOf (addEventKey data ag e) ag' e' := by
  rcases entriesOf_addEventKey data ag e ag' e' with h | h
  · rwa [h]
  · rw [h] at hx
    simp at hx

theorem mem_entriesOf_appendEntry (data : BTData) (ag e : String) (x0 : Entry)
    (ag' e' : String) (x : Entry) (hx : x ∈ entriesOf data ag' e') :
    x ∈ entriesOf (appendEntry data ag e x0) ag' e' := by
  rcases entriesOf_appendEntry data ag e x0 ag' e' with h | h
  · rwa [h]
  · rw [h]
    exact List.mem_append_left _ hx

/-- `GroupKeys data`: the parser state has exactly the 10 canonical age
groups as keys (true initially, preserved throughout). -/
def GroupKeys (data : BTData) : Prop :=
  ∀ ag, (data.lookup ag).isSome = true ↔ ag ∈ _AgeGroups

theorem groupKeys_appendEntry_inv (data : BTData) (ag e : String) (x : Entry)
    (h : GroupKeys data) : GroupKeys (appendEntry data ag e x) := by
  intro ag'
  rw [groupKeys_appendEntry]
  exact h ag'

theorem groupKeys_addEventKey_inv (data : BTData) (ag e : String)
    (h : GroupKeys data) : GroupKeys (addEventKey data ag e) := by
  intro ag'
  rw [groupKeys_addEventKey]
  exact h ag'

theorem eventKey_appendEntry (data : BTData) (ag e : String) (x : Entry)
    (ag' e' : String) :
    ((eventsOf (appendEntry data ag e x) ag').lookup e').isSome =
      ((eventsOf data ag').lookup e').isSome := by
  by_cases hag : ag' = ag
  · subst hag
    unfold eventsOf
    rw [lookup_appendEntry, if_pos rfl]
    cases hl : data.lookup ag' with
    | none => rfl
    | some evs =>
      simp only [Option.map_some', Option.getD_some]
      rw [lookup_dictUpdate]
      by_cases he : e' = e
      · rw [if_pos he]
        exact Option.isSome_map
      · rw [if_neg he]
  · unfold eventsOf
    rw [lookup_appendEntry, if_neg hag]

theorem eventKey_addEventKey (data : BTData) (ag e ag' e' : String)
    (hs : (data.lookup ag).isSome = true) :
    ((eventsOf (addEventKey data ag e) ag').lookup e').isSome = true ↔
      (((eventsOf data ag').lookup e').isSome = true ∨ (ag' = ag ∧ e' = e)) := by
  by_cases hag : ag' = ag
  · subst hag
    rw [eventsOf_addEventKey_self data ag' e hs, List.lookup_append]
    cases hevl : (eventsOf data ag').lookup e' with
    | some l => simp
    | none =>
      simp only [Option.none_or, true_and]
      rw [List.lookup_cons]
      by_cases he : e' = e
      · subst he
        simp
      · have hb : (e' == e) = false := by simp [he]
        rw [hb]
        simp [he]
  · rw [eventsOf_addEventKey_ne data ag e ag' hag]
    simp [hag]

theorem mem_entriesOf_appendEntry_self (data : BTData) (ag e : String)
    (x : Entry) (hs : (data.lookup ag).isSome = true)
    (he : ((eventsOf data ag).lookup e).isSome = true) :
    x ∈ entriesOf (appendEntry data ag e x) ag e := by
  unfold entriesOf
  rw [eventsOf_appendEntry_self data ag e x hs, lookup_dictUpdate, if_pos rfl]
  obtain ⟨l, hl⟩ := Option.isSome_iff_exists.mp he
  rw [hl]
  simp

theorem read_rows_mono : ∀ (rows : List BTRow) (data : BTData)
    (warns w : List String) (final : BTData),
    read_rows rows data warns = Except.ok (w, final) →
    (∀ m ∈ warns, m ∈ w) ∧
    (∀ ag e x, x ∈ entriesOf data ag e → x ∈ entriesOf final ag e)
  | [], data, warns, w, final, h => by
    unfold read_rows at h
    rw [Except.ok.injEq, Prod.mk.injEq] at h
    obtain ⟨hw, hd⟩ := h
    subst hw
    subst hd
    exact ⟨fun m hm => hm, fun ag e x hx => hx⟩
  | row :: rest, data, warns, w, final, h => by
    unfold read_rows at h
    by_cases hag : row.ageGroup ∈ _AgeGroups
    · rw [if_pos hag] at h
      by_cases hsome : (data.lookup row.ageGroup).isSome = true
      · rw [if_pos hsome] at h
        by_cases hkey :
            (((data.lookup row.ageGroup).getD []).lookup row.event).isSome = true
        · rw [if_pos hkey] at h
          simp only [] at h
          have ih := read_rows_mono rest _ _ _ _ h
          refine ⟨fun m hm => ih.1 m hm, fun ag e x hx => ih.2 ag e x ?_⟩
          exact mem_entriesOf_appendEntry data row.ageGroup row.event
            (mkEntry row) ag e x hx
        · rw [if_neg hkey] at h
          simp only [] at h
          have ih := read_rows_mono rest _ _ _ _ h
          refine ⟨fun m hm => ih.1 m (List.mem_append_left _ hm),
            fun ag e x hx => ih.2 ag e x ?_⟩
          exact mem_entriesOf_appendEntry _ row.ageGroup row.event (mkEntry row)
            ag e x (mem_entriesOf_addEventKey data row.ageGroup row.event ag e x hx)
      · rw [if_neg hsome] at h
        exact Except.noConfusion h
    · rw [if_neg hag] at h
      exact Except.noConfusion h

theorem read_rows_fatal : ∀ (rows : List BTRow) (data : BTData)
    (warns : List String) (r : BTRow),
    GroupKeys data →
    rows.find? (fun q => !decide (q.ageGroup ∈ _AgeGroups)) = some r →
    read_rows rows data warns =
      Except.error ("Unrecognized age group in data: " ++ r.ageGroup)
  | [], data, warns, r, hkeys, hfind => by simp at hfind
  | row :: rest, data, warns, r, hkeys, hfind => by
    by_cases hag : row.ageGroup ∈ _AgeGroups
    · rw [List.find?_cons_of_neg _ (by simp [hag])] at hfind
      unfold read_rows
      rw [if_pos hag, if_pos ((hkeys row.ageGroup).mpr hag)]
      by_cases hkey :
          (((data.lookup row.ageGroup).getD []).lookup row.event).isSome = true
      · rw [if_pos hkey]
        exact read_rows_fatal rest _ _ r
          (groupKeys_appendEntry_inv _ _ _ _ hkeys) hfind
      · rw [if_neg hkey]
        exact read_rows_fatal rest _ _ r
          (groupKeys_appendEntry_inv _ _ _ _
            (groupKeys_addEventKey_inv _ _ _ hkeys)) hfind
    · rw [List.find?_cons_of_pos _ (by simp [hag])] at hfind
      have hrr : row = r := by simpa using hfind
      subst hrr
      unfold read_rows
      rw [if_neg hag]

theorem read_rows_self_mem : ∀ (rows : List BTRow) (data : BTData)
    (warns w : List String) (final : BTData),
    read_rows rows data warns = Except.ok (w, final) → GroupKeys data →
    ∀ r ∈ rows, r.ageGroup ∈ _AgeGroups ∧
      mkEntry r ∈ entriesOf final r.ageGroup r.event
  | [], _, _, _, _, _, _ => by
    intro r hr
    simp at hr
  | row :: rest, data, warns, w, final, h, hkeys => by
    intro r hr
    unfold read_rows at h
    by_cases hag : row.ageGroup ∈ _AgeGroups
    · rw [if_pos hag, if_pos ((hkeys row.ageGroup).mpr hag)] at h
      have hs := (hkeys row.ageGroup).mpr hag
      rcases List.mem_cons.mp hr with hreq | hrm
      · subst hreq
        refine ⟨hag, ?_⟩
        by_cases hkey :
            (((data.lookup r.ageGroup).getD []).lookup r.event).isSome = true
        · rw [if_pos hkey] at h
          simp only [] at h
          have hmem : mkEntry r ∈ entriesOf
              (appendEntry data r.ageGroup r.event (mkEntry r)) r.ageGroup r.event :=
            mem_entriesOf_appendEntry_self data r.ageGroup r.event (mkEntry r) hs hkey
          exact (read_rows_mono rest _ _ _ _ h).2 _ _ _ hmem
        · rw [if_neg hkey] at h
          simp only [] at h
          have hs' : ((addEventKey data r.ageGroup r.event).lookup r.ageGroup).isSome
              = true := by
            rw [groupKeys_addEventKey]
            exact hs
          have hkey' : ((eventsOf (addEventKey data r.ageGroup r.event)
              r.ageGroup).lookup r.event).isSome = true := by
            rw [eventKey_addEventKey _ _ _ _ _ hs]
            exact Or.inr ⟨rfl, rfl⟩
          have hmem := mem_entriesOf_appendEntry_self _ r.ageGroup r.event
            (mkEntry r) hs' hkey'
          exact (read_rows_mono rest _ _ _ _ h).2 _ _ _ hmem
      · by_cases hkey :
            (((data.lookup row.ageGroup).getD []).lookup row.event).isSome = true
        · rw [if_pos hkey] at h
          simp only [] at h
          exact read_rows_self_mem rest _ _ _ _ h
            (groupKeys_appendEntry_inv _ _ _ _ hkeys) r hrm
        · rw [if_neg hkey] at h
          simp only [] at h
          exact read_rows_self_mem rest _ _ _ _ h
            (groupKeys_appendEntry_inv _ _ _ _
              (groupKeys_addEventKey_inv _ _ _ hkeys)) r hrm
    · rw [if_neg hag] at h
      exact Except.noConfusion h

theorem read_rows_evkeys : ∀ (rows : List BTRow) (data : BTData)
    (warns w : List String) (final : BTData),
    read_rows rows data warns = Except.ok (w, final) → GroupKeys data →
    ∀ ag e, ((eventsOf final ag).lookup e).isSome = true ↔
      (((eventsOf data ag).lookup e).isSome = true ∨
        ∃ r, r ∈ rows ∧ r.ageGroup = ag ∧ r.event = e)
  | [], data, warns, w, final, h, hkeys => by
    unfold read_rows at h
    rw [Except.ok.injEq, Prod.mk.injEq] at h
    obtain ⟨hw, hd⟩ := h
    subst hd
    intro ag e
    simp
  | row :: rest, data, warns, w, final, h, hkeys => by
    intro ag e
    unfold read_rows at h
    by_cases hag : row.ageGroup ∈ _AgeGroups
    · rw [if_pos hag, if_pos ((hkeys row.ageGroup).mpr hag)] at h
      have hs := (hkeys row.ageGroup).mpr hag
      by_cases hkey :
          (((data.lookup row.ageGroup).getD []).lookup row.event).isSome = true
      · rw [if_pos hkey] at h
        simp only [] at h
        have ih := read_rows_evkeys rest _ _ _ _ h
          (groupKeys_appendEntry_inv _ _ _ _ hkeys) ag e
        rw [ih, eventKey_appendEntry]
        constructor
        · rintro (hk | ⟨r, hrm, hre⟩)
          · exact Or.inl hk
          · exact Or.inr ⟨r, List.mem_cons_of_mem _ hrm, hre⟩
        · rintro (hk | ⟨r, hrm, hra, hre⟩)
          · exact Or.inl hk
          · rcases List.mem_cons.mp hrm with hreq | hrm'
            · subst hreq
              subst hra
              subst hre
              exact Or.inl hkey
            · exact Or.inr ⟨r, hrm', hra, hre⟩
      · rw [if_neg hkey] at h
        simp only [] at h
        have ih := read_rows_evkeys rest _ _ _ _ h
          (groupKeys_appendEntry_inv _ _ _ _
            (groupKeys_addEventKey_inv _ _ _ hkeys)) ag e
        rw [ih, eventKey_appendEntry, eventKey_addEventKey _ _ _ _ _ hs]
        constructor
        · rintro ((hk | ⟨hra, hre⟩) | ⟨r, hrm, hre⟩)
          · exact Or.inl hk
          · exact Or.inr ⟨row, List.mem_cons_self _ _, hra.symm, hre.symm⟩
          · exact Or.inr ⟨r, List.mem_cons_of_mem _ hrm, hre⟩
        · rintro (hk | ⟨r, hrm, hra, hre⟩)
          · exact Or.inl (Or.inl hk)
          · rcases List.mem_cons.mp hrm with hreq | hrm'
            · subst hreq
              exact Or.inl (Or.inr ⟨hra.symm, hre.symm⟩)
            · exact Or.inr ⟨r, hrm', hra, hre⟩
    · rw [if_neg hag] at h
      exact Except.noConfusion h

/-- `WarnInv`: every non-canonical event key present in the parser state has
already produced its swim-up notice. -/
def WarnInv (data : BTData) (warns : List String) : Prop :=
  ∀ ag e, ag ∈ _AgeGroups → ((eventsOf data ag).lookup e).isSome = true →
    e ∉ (_AgeEvents.lookup ag).getD [] → swimUpMsg e ag ∈ warns

theorem read_rows_warn : ∀ (rows : List BTRow) (data : BTData)
    (warns w : List String) (final : BTData),
    read_rows rows data warns = Except.ok (w, final) → GroupKeys data →
    WarnInv data warns → WarnInv final w
  | [], data, warns, w, final, h, hkeys, hwarn => by
    unfold read_rows at h
    rw [Except.ok.injEq, Prod.mk.injEq] at h
    obtain ⟨hw, hd⟩ := h
    subst hw
    subst hd
    exact hwarn
  | row :: rest, data, warns, w, final, h, hkeys, hwarn => by
    unfold read_rows at h
    by_cases hag : row.ageGroup ∈ _AgeGroups
    · rw [if_pos hag, if_pos ((hkeys row.ageGroup).mpr hag)] at h
      have hs := (hkeys row.ageGroup).mpr hag
      by_cases hkey :
          (((data.lookup row.ageGroup).getD []).lookup row.event).isSome = true
      · rw [if_pos hkey] at h
        simp only [] at h
        refine read_rows_warn rest _ _ _ _ h
          (groupKeys_appendEntry_inv _ _ _ _ hkeys) ?_
        intro ag e hag' hk hnc
        rw [eventKey_appendEntry] at hk
        exact hwarn ag e hag' hk hnc
      · rw [if_neg hkey] at h
        simp only [] at h
        refine read_rows_warn rest _ _ _ _ h
          (groupKeys_appendEntry_inv _ _ _ _
            (groupKeys_addEventKey_inv _ _ _ hkeys)) ?_
        intro ag e hag' hk hnc
        rw [eventKey_appendEntry, eventKey_addEventKey _ _ _ _ _ hs] at hk
        rcases hk with hk | ⟨hra, hre⟩
        · exact List.mem_append_left _ (hwarn ag e hag' hk hnc)
        · subst hra
          subst hre
          exact List.mem_append_right _ (by simp)
    · rw [if_neg hag] at h
      exact Except.noConfusion h

theorem initialData_eq : initialData = _AgeGroups.map (fun ag =>
    (ag, (List.zipWith (fun e d => eventLabel d e) _EventNames
      ((_AgeDistances.lookup ag).getD [])).map
        (fun e => (e, ([] : List Entry))))) := by
  unfold initialData _AgeEvents
  rw [List.map_map]
  rfl

theorem lookup_initialData (ag : String) :
    initialData.lookup ag = if ag ∈ _AgeGroups then
      some ((List.zipWith (fun e d => eventLabel d e) _EventNames
        ((_AgeDistances.lookup ag).getD [])).map
          (fun e => (e, ([] : List Entry))))
    else none := by
  rw [initialData_eq]
  exact lookup_map_pair _ ag _AgeGroups

theorem initial_groupKeys : GroupKeys initialData := by
  intro ag
  rw [lookup_initialData]
  by_cases h : ag ∈ _AgeGroups <;> simp [h]

theorem lookup_AgeEvents (ag : String) :
    _AgeEvents.lookup ag = if ag ∈ _AgeGroups then
      some (List.zipWith (fun e d => eventLabel d e) _EventNames
        ((_AgeDistances.lookup ag).getD [])) else none := by
  unfold _AgeEvents
  exact lookup_map_pair _ ag _AgeGroups

theorem initial_eventKeys (ag e : String) :
    ((eventsOf initialData ag).lookup e).isSome = true ↔
      (ag ∈ _AgeGroups ∧ e ∈ (_AgeEvents.lookup ag).getD []) := by
  unfold eventsOf
  rw [lookup_initialData, lookup_AgeEvents]
  by_cases h : ag ∈ _AgeGroups
  · simp only [h, if_true, Option.getD_some, true_and]
    rw [lookup_map_pair]
    by_cases he : e ∈ List.zipWith (fun e d => eventLabel d e) _EventNames
        ((_AgeDistances.lookup ag).getD []) <;> simp [he]
  · simp [h]

theorem reportHasHeader_iff (data : BTData) (ag e : String) :
    reportHasHeader (gen_unformatted_report data) ag e = true ↔
      (ag ∈ _AgeGroups ∧ e ∈ _AllEvents ∧
        ((eventsOf data ag).lookup e).isSome = true) := by
  unfold reportHasHeader gen_unformatted_report eventsOf
  rw [List.any_eq_true]
  constructor
  · rintro ⟨p, hp, hcond⟩
    obtain ⟨ag', hag', rfl⟩ := List.mem_map.mp hp
    simp only [Bool.and_eq_true, beq_iff_eq] at hcond
    obtain ⟨hageq, hinner⟩ := hcond
    subst hageq
    unfold gen_unformatted_events at hinner
    rw [List.any_eq_true] at hinner
    obtain ⟨q, hq, heq⟩ := hinner
    obtain ⟨e', he', rfl⟩ := List.mem_map.mp hq
    simp only [beq_iff_eq] at heq
    subst heq
    have hmf := List.mem_filter.mp he'
    exact ⟨hag', hmf.1, by simpa using hmf.2⟩
  · rintro ⟨hag, hae, hkey⟩
    refine ⟨(ag, gen_unformatted_events ((data.lookup ag).getD [])),
      List.mem_map.mpr ⟨ag, hag, rfl⟩, ?_⟩
    simp only [Bool.and_eq_true, beq_iff_eq, eq_self_iff_true, true_and]
    rw [List.any_eq_true]
    refine ⟨(e, gen_unformatted_swimmers
      ((((data.lookup ag).getD []).lookup e).getD [])), ?_, by simp⟩
    unfold gen_unformatted_events
    exact List.mem_map.mpr ⟨e, List.mem_filter.mpr ⟨hae, by simpa using hkey⟩, rfl⟩

/-- C3 counterexample: before any row is read the parser state already holds
every canonical (age group, event) pair, so with an empty row list — zero
result rows for every pair — the generated report still contains the
"Girls 8 & Under" / "25 Freestyle" header, contradicting "pairs with zero
results never appear". -/
theorem report_empty_header_counterexample :
    read_rows [] initialData [] = Except.ok ([], initialData) ∧
    reportHasHeader (gen_unformatted_report initialData)
      "Girls 8 & Under" "25 Freestyle" = true := by
  constructor
  · rfl
  · rfl

/-- C3 amended: the report contains a header for (ag, e) iff ag is one of the
10 canonical age groups, e is in the canonical all-events list, and e is
either pre-registered for ag or contributed by at least one input row; in
particular canonical pairs appear even with zero results. -/
theorem report_headers_amended (rows : List BTRow) (w : List String)
    (data : BTData)
    (h : read_rows rows initialData [] = Except.ok (w, data)) (ag e : String) :
    reportHasHeader (gen_unformatted_report data) ag e = true ↔
      (ag ∈ _AgeGroups ∧ e ∈ _AllEvents ∧
        (e ∈ (_AgeEvents.lookup ag).getD [] ∨
          ∃ r, r ∈ rows ∧ r.ageGroup = ag ∧ r.event = e)) := by
  rw [reportHasHeader_iff]
  rw [read_rows_evkeys rows initialData [] w data h initial_groupKeys ag e]
  rw [initial_eventKeys]
  constructor
  · rintro ⟨hag, hae, (⟨_, hc⟩ | hr)⟩
    · exact ⟨hag, hae, Or.inl hc⟩
    · exact ⟨hag, hae, Or.inr hr⟩
  · rintro ⟨hag, hae, (hc | hr)⟩
    · exact ⟨hag, hae, Or.inl ⟨hag, hc⟩⟩
    · exact ⟨hag, hae, Or.inr hr⟩

/-- Witness for the amended C3: on an empty row list the "Boys 9-10" /
"50 Freestyle" canonical header is present. -/
theorem report_headers_amended_witness :
    reportHasHeader (gen_unformatted_report initialData)
      "Boys 9-10" "50 Freestyle" = true :=
  (report_headers_amended [] [] initialData rfl "Boys 9-10" "50 Freestyle").mpr
    ⟨by decide, by decide, Or.inl (by decide)⟩

/-- C9: a row with an age group outside the 10-category enumeration makes the
whole parse fail with a message naming the offending value (no partial
output); a row with an event not pre-registered for its (valid) age group is
accepted — its entry is in the output — and the swim-up notice is recorded. -/
theorem best_times_parser_spec (rows : List BTRow) :
    (∀ r, rows.find? (fun q => !decide (q.ageGroup ∈ _AgeGroups)) = some r →
      read_rows rows initialData [] =
        Except.error ("Unrecognized age group in data: " ++ r.ageGroup))
  ∧ (∀ w data, read_rows rows initialData [] = Except.ok (w, data) →
      ∀ r ∈ rows, mkEntry r ∈ entriesOf data r.ageGroup r.event ∧
        (r.event ∉ (_AgeEvents.lookup r.ageGroup).getD [] →
          swimUpMsg r.event r.ageGroup ∈ w)) := by
  constructor
  · intro r hfind
    exact read_rows_fatal rows initialData [] r initial_groupKeys hfind
  · intro w data h r hr
    have hself := read_rows_self_mem rows initialData [] w data h
      initial_groupKeys r hr
    refine ⟨hself.2, ?_⟩
    intro hnc
    have hinit : WarnInv initialData [] := by
      intro ag e hag hk hnc'
      rw [initial_eventKeys] at hk
      exact absurd hk.2 hnc'
    have hwarn := read_rows_warn rows initialData [] w data h
      initial_groupKeys hinit
    have hkey : ((eventsOf data r.ageGroup).lookup r.event).isSome = true := by
      have hm := hself.2
      unfold entriesOf at hm
      cases hl : (eventsOf data r.ageGroup).lookup r.event with
      | none =>
        rw [hl] at hm
        simp at hm
      | some l => rfl
    exact hwarn r.ageGroup r.event hself.1 hkey hnc

/-- An input row with the unknown age group label used by the C9 witness. -/
def badRow : BTRow := ⟨"Kids 7", "A", "B", "7", "25 Freestyle", 3210, "6/1"⟩

/-- Witness for C9: a single row with age group "Kids 7" aborts the parse
with the message naming that value. -/
theorem best_times_parser_spec_witness :
    read_rows [badRow] initialData [] =
      Except.error ("Unrecognized age group in data: " ++ "Kids 7") :=
  (best_times_parser_spec [badRow]).1 badRow (by rfl)

/-! ## Meet-directory scans: gen_black_ribbons.read_data vs gen_all -/

/-- Loop body of `gen_black_ribbons.read_data`'s meet scan for one meet
index: slice out `(meet_name, result, _, _, _, date)` and record
`(meet_name, date)` when name and result are non-empty and the slot is still
`None`. -/
def rdStep (line : List String) (ms : List MeetEntry) (i : ℕ) : List MeetEntry :=
  if line.getD (LeadColumns.length + i * MeetColumns.length) "" ≠ "" ∧
     line.getD (LeadColumns.length + i * MeetColumns.length + 1) "" ≠ "" ∧
     ms.getD i none = none then
    ms.set i (some (line.getD (LeadColumns.length + i * MeetColumns.length) "",
      line.getD (LeadColumns.length + i * MeetColumns.length + 5) ""))
  else ms

/-- The inner `for i in range(n_meet)` loop of `read_data` for one row. -/
def read_data_update_line (nMeets : ℕ) (line : List String)
    (meets : List MeetEntry) : List MeetEntry :=
  (List.range nMeets).foldl (rdStep line) meets

/-- The meet directory built by `gen_black_ribbons.read_data`:
`meets = [None]*n_meet`, then one pass over the data rows. -/
def read_data_meets (nMeets : ℕ) (lines : List (List String)) : List MeetEntry :=
  lines.foldl (fun ms line => read_data_update_line nMeets line ms)
    (List.replicate nMeets none)

/-- Loop body of `gen_all.validate_black_ribbon_file`'s scan for one meet
index: when the row's `ResultSec` cell is non-empty and the index is not yet
in the dict, record that row's meet name. -/
def gaStep (line : List String) (d : List (ℕ × String)) (meet : ℕ) :
    List (ℕ × String) :=
  if line.getD (LeadColumns.length + 2 + meet * MeetColumns.length) "" ≠ "" then
    if (d.lookup meet).isNone then
      d ++ [(meet, line.getD (LeadColumns.length + meet * MeetColumns.length) "")]
    else d
  else d

/-- The inner `for meet in range(n_meets)` loop of `gen_all`'s scan. -/
def scanStepLine (nMeets : ℕ) (dict : List (ℕ × String)) (line : List String) :
    List (ℕ × String) :=
  (List.range nMeets).foldl (gaStep line) dict

/-- `meets_in_file` as built by `gen_all.validate_black_ribbon_file`. -/
def gen_all_scan (nMeets : ℕ) (lines : List (List String)) :
    List (ℕ × String) :=
  lines.foldl (scanStepLine nMeets) []

/-- The condition under which `read_data` records meet `i` from a row. -/
def meetBlockHit (i : ℕ) (line : List String) : Bool :=
  (line.getD (LeadColumns.length + i * MeetColumns.length) "" != "") &&
  (line.getD (LeadColumns.length + i * MeetColumns.length + 1) "" != "")

/-- The condition under which `gen_all`'s scan records meet `i` from a row. -/
def scanHit (i : ℕ) (line : List String) : Bool :=
  line.getD (LeadColumns.length + 2 + i * MeetColumns.length) "" != ""

theorem rdStep_length (line : List String) (ms : List MeetEntry) (i : ℕ) :
    (rdStep line ms i).length = ms.length := by
  unfold rdStep
  split
  · exact List.length_set ms i _
  · rfl

theorem read_data_update_line_length (line : List String) :
    ∀ (n : ℕ) (ms : List MeetEntry),
      (read_data_update_line n line ms).length = ms.length := by
  intro n
  induction n with
  | zero => intro ms; rfl
  | succ m ih =>
    intro ms
    unfold read_data_update_line at *
    rw [List.range_succ, List.foldl_append, List.foldl_cons, List.foldl_nil,
      rdStep_length, ih]

theorem rdStep_getD_ne (line : List String) (ms : List MeetEntry) (i j : ℕ)
    (hne : i ≠ j) : (rdStep line ms i).getD j none = ms.getD j none := by
  unfold rdStep
  split
  · rw [List.getD_eq_getElem?_getD, List.getElem?_set_ne hne,
      ← List.getD_eq_getElem?_getD]
  · rfl

theorem rdStep_getD_self (line : List String) (ms : List MeetEntry) (i : ℕ)
    (hlen : i < ms.length) :
    (rdStep line ms i).getD i none =
      if meetBlockHit i line ∧ ms.getD i none = none then
        some (line.getD (LeadColumns.length + i * MeetColumns.length) "",
          line.getD (LeadColumns.length + i * MeetColumns.length + 5) "")
      else ms.getD i none := by
  unfold rdStep
  by_cases hc : line.getD (LeadColumns.length + i * MeetColumns.length) "" ≠ "" ∧
      line.getD (LeadColumns.length + i * MeetColumns.length + 1) "" ≠ "" ∧
      ms.getD i none = none
  · rw [if_pos hc]
    have hhit : meetBlockHit i line ∧ ms.getD i none = none := by
      unfold meetBlockHit
      refine ⟨?_, hc.2.2⟩
      simp only [Bool.and_eq_true, bne_iff_ne, ne_eq]
      exact ⟨hc.1, hc.2.1⟩
    rw [if_pos hhit, List.getD_eq_getElem?_getD, List.getElem?_set_self hlen]
    rfl
  · rw [if_neg hc]
    by_cases hhit : meetBlockHit i line ∧ ms.getD i none = none
    · exfalso
      apply hc
      have hb := hhit.1
      unfold meetBlockHit at hb
      simp only [Bool.and_eq_true, bne_iff_ne, ne_eq] at hb
      exact ⟨hb.1, hb.2, hhit.2⟩
    · rw [if_neg hhit]

theorem read_data_update_line_getD_ge (line : List String) :
    ∀ (n i : ℕ) (ms : List MeetEntry), n ≤ i →
      (read_data_update_line n line ms).getD i none = ms.getD i none := by
  intro n
  induction n with
  | zero => intro i ms _; rfl
  | succ m ih =>
    intro i ms hni
    unfold read_data_update_line at *
    rw [List.range_succ, List.foldl_append, List.foldl_cons, List.foldl_nil]
    rw [rdStep_getD_ne line _ m i (by omega)]
    exact ih i ms (by omega)

theorem read_data_update_line_getD (line : List String) :
    ∀ (n i : ℕ) (ms : List MeetEntry), i < n → n ≤ ms.length →
      (read_data_update_line n line ms).getD i none =
        if meetBlockHit i line ∧ ms.getD i none = none then
          some (line.getD (LeadColumns.length + i * MeetColumns.length) "",
            line.getD (LeadColumns.length + i * MeetColumns.length + 5) "")
        else ms.getD i none := by
  intro n
  induction n with
  | zero => intro i ms hi _; omega
  | succ m ih =>
    intro i ms hi hlen
    unfold read_data_update_line at *
    rw [List.range_succ, List.foldl_append, List.foldl_cons, List.foldl_nil]
    by_cases him : i < m
    · rw [rdStep_getD_ne line _ m i (by omega)]
      exact ih i ms him (by omega)
    · have hieq : i = m := by omega
      subst hieq
      have hprev : (List.foldl (rdStep line) ms (List.range i)).getD i none
          = ms.getD i none :=
        read_data_update_line_getD_ge line i i ms (le_refl i)
      have hplen : (List.foldl (rdStep line) ms (List.range i)).length
          = ms.length := read_data_update_line_length line i ms
      rw [rdStep_getD_self line _ i (by rw [hplen]; omega)]
      rw [hprev]

theorem getD_replicate_none (n i : ℕ) :
    ((List.replicate n (none : MeetEntry)).getD i none) = none := by
  rw [List.getD_eq_getElem?_getD]
  by_cases h : i < n
  · rw [List.getElem?_eq_getElem (by simpa using h)]
    simp [List.getElem_replicate]
  · rw [List.getElem?_eq_none (by simpa using h)]
    rfl

theorem read_data_fold_getD (nMeets i : ℕ) (hi : i < nMeets) :
    ∀ (lines : List (List String)) (ms : List MeetEntry), nMeets ≤ ms.length →
      (lines.foldl (fun ms line => read_data_update_line nMeets line ms)
          ms).getD i none =
        ((ms.getD i none).or
          (((lines.filter (meetBlockHit i)).head?).map
            (fun l => (l.getD (LeadColumns.length + i * MeetColumns.length) "",
              l.getD (LeadColumns.length + i * MeetColumns.length + 5) ""))))
  | [], ms, hlen => by
    simp
  | line :: rest, ms, hlen => by
    rw [List.foldl_cons]
    have hlen' : nMeets ≤ (read_data_update_line nMeets line ms).length := by
      rw [read_data_update_line_length]
      exact hlen
    rw [read_data_fold_getD nMeets i hi rest _ hlen']
    rw [read_data_update_line_getD line nMeets i ms hi hlen]
    cases hm : ms.getD i none with
    | some v =>
      rw [if_neg (by
        rintro ⟨_, h⟩
        exact Option.noConfusion h), List.filter_cons]
      cases hb : meetBlockHit i line <;> rfl
    | none =>
      by_cases hhit : meetBlockHit i line = true
      · rw [if_pos ⟨hhit, rfl⟩, List.filter_cons_of_pos hhit, List.head?_cons]
        rfl
      · rw [if_neg (fun hc => hhit hc.1), List.filter_cons_of_neg hhit]

theorem read_data_meets_getD (nMeets : ℕ) (lines : List (List String)) (i : ℕ)
    (hi : i < nMeets) :
    (read_data_meets nMeets lines).getD i none =
      ((lines.filter (meetBlockHit i)).head?).map
        (fun l => (l.getD (LeadColumns.length + i * MeetColumns.length) "",
          l.getD (LeadColumns.length + i * MeetColumns.length + 5) "")) := by
  unfold read_data_meets
  rw [read_data_fold_getD nMeets i hi lines _ (by simp)]
  rw [getD_replicate_none]
  rfl

theorem gaStep_lookup_ne (line : List String) (d : List (ℕ × String)) (i j : ℕ)
    (hne : j ≠ i) : (gaStep line d i).lookup j = d.lookup j := by
  unfold gaStep
  split
  · split
    · rw [List.lookup_append]
      have hnone : (([(i, line.getD (LeadColumns.length + i * MeetColumns.length)
          "")]).lookup j) = none := by
        rw [List.lookup_cons]
        have hb : (j == i) = false := by simp [hne]
        rw [hb]
        rfl
      rw [hnone]
      cases d.lookup j <;> rfl
    · rfl
  · rfl

theorem gaStep_lookup_self (line : List String) (d : List (ℕ × String)) (i : ℕ) :
    (gaStep line d i).lookup i =
      (d.lookup i).or (if scanHit i line then
        some (line.getD (LeadColumns.length + i * MeetColumns.length) "")
      else none) := by
  unfold gaStep
  by_cases hc : line.getD (LeadColumns.length + 2 + i * MeetColumns.length) "" ≠ ""
  · rw [if_pos hc]
    have hhit : scanHit i line = true := by
      unfold scanHit
      simpa [bne_iff_ne] using hc
    rw [hhit, if_pos rfl]
    by_cases hn : (d.lookup i).isNone = true
    · rw [if_pos hn, List.lookup_append]
      rw [Option.isNone_iff_eq_none.mp hn]
      rw [List.lookup_cons]
      have hb : (i == i) = true := by simp
      rw [hb]
    · rw [if_neg hn]
      cases hd : d.lookup i with
      | none => rw [hd] at hn; simp at hn
      | some v => rfl
  · rw [if_neg hc]
    have hx : line.getD (LeadColumns.length + 2 + i * MeetColumns.length) "" = "" := by
      by_contra hne
      exact hc hne
    have hhit : scanHit i line = false := by
      unfold scanHit
      rw [hx]
      simp
    rw [if_neg (by simp [hhit])]
    cases d.lookup i <;> rfl

theorem scanStepLine_lookup_ge (line : List String) :
    ∀ (n i : ℕ) (d : List (ℕ × String)), n ≤ i →
      (scanStepLine n d line).lookup i = d.lookup i := by
  intro n
  induction n with
  | zero => intro i d _; rfl
  | succ m ih =>
    intro i d hni
    unfold scanStepLine at *
    rw [List.range_succ, List.foldl_append, List.foldl_cons, List.foldl_nil]
    rw [gaStep_lookup_ne line _ m i (by omega)]
    exact ih i d (by omega)

theorem scanStepLine_lookup (line : List String) :
    ∀ (n i : ℕ) (d : List (ℕ × String)), i < n →
      (scanStepLine n d line).lookup i =
        (d.lookup i).or (if scanHit i line then
          some (line.getD (LeadColumns.length + i * MeetColumns.length) "")
        else none) := by
  intro n
  induction n with
  | zero => intro i d hi; omega
  | succ m ih =>
    intro i d hi
    unfold scanStepLine at *
    rw [List.range_succ, List.foldl_append, List.foldl_cons, List.foldl_nil]
    by_cases him : i < m
    · rw [gaStep_lookup_ne line _ m i (by omega)]
      exact ih i d him
    · have hieq : i = m := by omega
      subst hieq
      have hprev : (List.foldl (gaStep line) d (List.range i)).lookup i
          = d.lookup i := scanStepLine_lookup_ge line i i d (le_refl i)
      rw [gaStep_lookup_self line _ i, hprev]

theorem gen_all_fold_lookup (nMeets i : ℕ) (hi : i < nMeets) :
    ∀ (lines : List (List String)) (d : List (ℕ × String)),
      (lines.foldl (scanStepLine nMeets) d).lookup i =
        ((d.lookup i).or
          (((lines.filter (scanHit i)).head?).map
            (fun l => l.getD (LeadColumns.length + i * MeetColumns.length) "")))
  | [], d => by simp
  | line :: rest, d => by
    rw [List.foldl_cons]
    rw [gen_all_fold_lookup nMeets i hi rest _]
    rw [scanStepLine_lookup line nMeets i d hi]
    cases hd : d.lookup i with
    | some v =>
      rw [List.filter_cons]
      cases hb : scanHit i line <;> rfl
    | none =>
      by_cases hhit : scanHit i line = true
      · rw [hhit, if_pos rfl, List.filter_cons_of_pos hhit, List.head?_cons]
        rfl
      · have hb : scanHit i line = false := by
          cases h : scanHit i line
          · rfl
          · exact absurd h hhit
        rw [hb, if_neg (by simp), List.filter_cons_of_neg (by simp [hb])]
        rfl

theorem gen_all_scan_lookup (nMeets : ℕ) (lines : List (List String)) (i : ℕ)
    (hi : i < nMeets) :
    (gen_all_scan nMeets lines).lookup i =
      ((lines.filter (scanHit i)).head?).map
        (fun l => l.getD (LeadColumns.length + i * MeetColumns.length) "") := by
  unfold gen_all_scan
  rw [gen_all_fold_lookup nMeets i hi lines []]
  rfl

/-- A report-card data row whose first meet block has name "Meet A" and
result "31.50" but an empty `ResultSec` cell: `read_data` records the meet,
`gen_all`'s scan does not. -/
def mismatchLine : List String :=
  ["GA", "1", "Doe", "Jo", "Doe_Jo", "9", "25", "free",
   "Meet A", "31.50", "", "", "", "6/20",
   "1", "1", "0", "0", "0"]

/-- C8 counterexample: on `mismatchLine` the two scans disagree about meet
index 0 — the ribbon generator's scan records ("Meet A", "6/20") while the
discovery-mode scan records nothing, refuting the claimed agreement. -/
theorem meets_scan_counterexample :
    (read_data_meets 1 [mismatchLine]).getD 0 none = some ("Meet A", "6/20") ∧
    (gen_all_scan 1 [mismatchLine]).lookup 0 = none := by
  constructor <;> rfl

/-- C8 amended: `read_data` records, for each meet index, the name and date
of the first row whose Name and Result cells are both non-empty (independent
of the Improved flag); `gen_all`'s scan records the name from the first row
whose ResultSec cell is non-empty; the two scans agree on an index whenever,
on every row, "Name and Result both present" coincides with "ResultSec
present" for that index's block. -/
theorem meets_scans_amended (nMeets : ℕ) (lines : List (List String)) (i : ℕ)
    (hi : i < nMeets)
    (halign : ∀ l ∈ lines, meetBlockHit i l = scanHit i l) :
    ((read_data_meets nMeets lines).getD i none =
      ((lines.filter (meetBlockHit i)).head?).map
        (fun l => (l.getD (LeadColumns.length + i * MeetColumns.length) "",
          l.getD (LeadColumns.length + i * MeetColumns.length + 5) "")))
  ∧ (((read_data_meets nMeets lines).getD i none).map Prod.fst =
      (gen_all_scan nMeets lines).lookup i) := by
  have h1 := read_data_meets_getD nMeets lines i hi
  have h2 := gen_all_scan_lookup nMeets lines i hi
  refine ⟨h1, ?_⟩
  rw [h1, h2, List.filter_congr halign, Option.map_map]
  rfl

/-- A fully-populated row (name, result and `ResultSec` all present) used as
the C8 witness input. -/
def alignedLine : List String :=
  ["GA", "1", "Doe", "Jo", "Doe_Jo", "9", "25", "free",
   "Meet A", "31.50", "31.50", "1", "6", "6/20",
   "1", "1", "0", "0", "0"]

/-- Witness for the amended C8: on a fully-populated row the two scans agree
on meet index 0. -/
theorem meets_scans_amended_witness :
    ((read_data_meets 1 [alignedLine]).getD 0 none).map Prod.fst =
      (gen_all_scan 1 [alignedLine]).lookup 0 :=
  (meets_scans_amended 1 [alignedLine] 0 (by decide) (by decide)).2

/-! ## gen_all.py: file discovery -/

/-- A candidate CSV file: its header row, its data rows, and its filesystem
modification time. -/
structure CsvFile where
  header : List String
  rows : List (List String)
  mtime : ℚ
deriving DecidableEq

/-- `is_best_times_file`: the header must equal the 10 expected best-times
column names (length assert plus positionwise `zip` equality). -/
def is_best_times_file (f : CsvFile) : Bool := f.header == ExpectedColumns

/-- `validate_black_ribbon_file`: validate the repeating-block header, then
scan the rows for the meet directory.  Any exception yields `None`; in
particular a data row shorter than the deepest accessed cell index
(`n_lead + 2 + (n_meets-1)*n_meet_col`) raises `IndexError` mid-scan, so the
whole file is rejected. -/
def validate_black_ribbon_file (f : CsvFile) : Option (List (ℕ × String)) :=
  if validate_black_ribbon_header f.header then
    let nMeets := (f.header.length - (LeadColumns.length + TailColumns.length)) /
      MeetColumns.length
    if f.rows.all (fun line =>
        LeadColumns.length + 2 + (nMeets - 1) * MeetColumns.length < line.length)
    then some (gen_all_scan nMeets f.rows)
    else none
  else none

/-- The meet directory a candidate exposes (empty when invalid). -/
def meetsOf (f : CsvFile) : List (ℕ × String) :=
  (validate_black_ribbon_file f).getD []

/-- `max(meets.keys())` (the dict is non-empty whenever this is used). -/
def maxMeetKey (d : List (ℕ × String)) : ℕ :=
  (d.map (fun p => p.1)).foldl max 0

/-- A file the discovery loop keeps as a report-card candidate: not a
best-times file, and its validation produced a non-empty meet directory
(Python: `meets = validate_black_ribbon_file(file); if meets:`). -/
def isRibbonCandidate (f : CsvFile) : Bool :=
  !(is_best_times_file f) && !(meetsOf f).isEmpty

/-- The module-scope discovery accumulators of `gen_all.py`. -/
structure DiscoveryState where
  best_times_file : Option CsvFile
  best_times_mtime : ℚ
  black_ribbon_file : Option CsvFile
  black_ribbon_meets : Option (List (ℕ × String))

def initDiscovery : DiscoveryState := ⟨none, 0, none, none⟩

/-- One iteration of the `for file in glob.glob(...)` discovery loop. -/
def discoverStep (st : DiscoveryState) (f : CsvFile) : DiscoveryState :=
  if is_best_times_file f then
    if st.best_times_mtime < f.mtime then
      { st with best_times_file := some f, best_times_mtime := f.mtime }
    else st
  else
    match validate_black_ribbon_file f with
    | some meets =>
      if meets.isEmpty then st
      else
        match st.black_ribbon_file, st.black_ribbon_meets with
        | some _, some cur =>
          if maxMeetKey cur < maxMeetKey meets then
            { st with black_ribbon_file := some f, black_ribbon_meets := some meets }
          else st
        | _, _ =>
          { st with black_ribbon_file := some f, black_ribbon_meets := some meets }
    | none => st

/-- The whole discovery loop over the directory's CSV files in glob order. -/
def discover (files : List CsvFile) : DiscoveryState :=
  files.foldl discoverStep initDiscovery

/-- Invariant maintained by the discovery loop over the processed prefix. -/
def DiscoveryInv (st : DiscoveryState) (processed : List CsvFile) : Prop :=
  (∀ g ∈ processed, is_best_times_file g = true → g.mtime ≤ st.best_times_mtime)
  ∧ (st.best_times_file = none → st.best_times_mtime = 0)
  ∧ (∀ f, st.best_times_file = some f → f ∈ processed ∧
      is_best_times_file f = true ∧ f.mtime = st.best_times_mtime)
  ∧ (st.black_ribbon_file = none → st.black_ribbon_meets = none ∧
      ∀ g ∈ processed, isRibbonCandidate g = false)
  ∧ (∀ f, st.black_ribbon_file = some f →
      isRibbonCandidate f = true ∧ st.black_ribbon_meets = some (meetsOf f) ∧
      ∃ k, k < processed.length ∧ processed[k]? = some f ∧
        (∀ j g, j < k → processed[j]? = some g → isRibbonCandidate g = true →
          maxMeetKey (meetsOf g) < maxMeetKey (meetsOf f)) ∧
        (∀ j g, k < j → processed[j]? = some g → isRibbonCandidate g = true →
          maxMeetKey (meetsOf g) ≤ maxMeetKey (meetsOf f)))

theorem discoveryInv_extend_skip (st : DiscoveryState) (p : List CsvFile)
    (f : CsvFile) (h : DiscoveryInv st p)
    (hbm : is_best_times_file f = true → f.mtime ≤ st.best_times_mtime)
    (hcand : isRibbonCandidate f = true →
      ∃ f', st.black_ribbon_file = some f' ∧
        maxMeetKey (meetsOf f) ≤ maxMeetKey (meetsOf f')) :
    DiscoveryInv st (p ++ [f]) := by
  unfold DiscoveryInv at h ⊢
  obtain ⟨hbt1, hbt2, hbt3, hrb1, hrb2⟩ := h
  refine ⟨?_, hbt2, ?_, ?_, ?_⟩
  · intro g hg hgb
    rcases List.mem_append.mp hg with hg | hg
    · exact hbt1 g hg hgb
    · rw [List.mem_singleton] at hg
      subst hg
      exact hbm hgb
  · intro f' hf'
    obtain ⟨hmem, hb, hm⟩ := hbt3 f' hf'
    exact ⟨List.mem_append_left _ hmem, hb, hm⟩
  · intro hnone
    obtain ⟨hm, hc⟩ := hrb1 hnone
    refine ⟨hm, ?_⟩
    intro g hg
    rcases List.mem_append.mp hg with hg | hg
    · exact hc g hg
    · rw [List.mem_singleton] at hg
      subst hg
      by_contra hgc
      obtain ⟨f', heq, _⟩ := hcand (by
        cases hq : isRibbonCandidate g
        · exact absurd hq hgc
        · rfl)
      rw [hnone] at heq
      exact Option.noConfusion heq
  · intro f' hf'
    obtain ⟨hc, hm, k, hk, hkth, hbefore, hafter⟩ := hrb2 f' hf'
    refine ⟨hc, hm, k, ?_, ?_, ?_, ?_⟩
    · rw [List.length_append]
      omega
    · rw [List.getElem?_append_left hk]
      exact hkth
    · intro j g hj hjth hgc
      rw [List.getElem?_append_left (by omega)] at hjth
      exact hbefore j g hj hjth hgc
    · intro j g hj hjth hgc
      by_cases hjp : j < p.length
      · rw [List.getElem?_append_left hjp] at hjth
        exact hafter j g hj hjth hgc
      · by_cases hje : j = p.length
        · subst hje
          rw [List.getElem?_concat_length] at hjth
          rw [Option.some.injEq] at hjth
          subst hjth
          obtain ⟨f'', heq, hle⟩ := hcand hgc
          rw [hf'] at heq
          rw [Option.some.injEq] at heq
          subst heq
          exact hle
        · rw [List.getElem?_eq_none (by
            rw [List.length_append]
            simp only [List.length_singleton]
            omega)] at hjth
          exact Option.noConfusion hjth

theorem discoverStep_inv (st : DiscoveryState) (p : List CsvFile)
    (h : DiscoveryInv st p) (f : CsvFile) :
    DiscoveryInv (discoverStep st f) (p ++ [f]) := by
  have hinv := h
  unfold DiscoveryInv at h
  obtain ⟨hbt1, hbt2, hbt3, hrb1, hrb2⟩ := h
  unfold discoverStep
  by_cases hbest : is_best_times_file f = true
  · rw [if_pos hbest]
    have hnotcand : isRibbonCandidate f = false := by
      unfold isRibbonCandidate
      rw [hbest]
      rfl
    by_cases hmt : st.best_times_mtime < f.mtime
    · rw [if_pos hmt]
      unfold DiscoveryInv
      refine ⟨?_, ?_, ?_, ?_, ?_⟩
      · intro g hg hgb
        rcases List.mem_append.mp hg with hg | hg
        · exact le_of_lt (lt_of_le_of_lt (hbt1 g hg hgb) hmt)
        · rw [List.mem_singleton] at hg
          subst hg
          exact le_refl _
      · intro hnone
        exact Option.noConfusion hnone
      · intro f' hf'
        rw [Option.some.injEq] at hf'
        subst hf'
        exact ⟨List.mem_append_right _ (by simp), hbest, rfl⟩
      · intro hnone
        obtain ⟨hm, hc⟩ := hrb1 hnone
        refine ⟨hm, ?_⟩
        intro g hg
        rcases List.mem_append.mp hg with hg | hg
        · exact hc g hg
        · rw [List.mem_singleton] at hg
          subst hg
          exact hnotcand
      · intro f' hf'
        obtain ⟨hc, hm, k, hk, hkth, hbefore, hafter⟩ := hrb2 f' hf'
        refine ⟨hc, hm, k, ?_, ?_, ?_, ?_⟩
        · rw [List.length_append]
          omega
        · rw [List.getElem?_append_left hk]
          exact hkth
        · intro j g hj hjth hgc
          rw [List.getElem?_append_left (by omega)] at hjth
          exact hbefore j g hj hjth hgc
        · intro j g hj hjth hgc
          by_cases hjp : j < p.length
          · rw [List.getElem?_append_left hjp] at hjth
            exact hafter j g hj hjth hgc
          · by_cases hje : j = p.length
            · subst hje
              rw [List.getElem?_concat_length] at hjth
              rw [Option.some.injEq] at hjth
              subst hjth
              rw [hnotcand] at hgc
              exact Bool.noConfusion hgc
            · rw [List.getElem?_eq_none (by
                rw [List.length_append]
                simp only [List.length_singleton]
                omega)] at hjth
              exact Option.noConfusion hjth
    · rw [if_neg hmt]
      refine discoveryInv_extend_skip st p f hinv (fun _ => le_of_not_lt hmt) ?_
      intro hgc
      rw [hnotcand] at hgc
      exact Bool.noConfusion hgc
  · rw [if_neg hbest]
    have hbestf : is_best_times_file f = false := by
      cases hq : is_best_times_file f
      · rfl
      · exact absurd hq hbest
    cases hval : validate_black_ribbon_file f with
    | none =>
      refine discoveryInv_extend_skip st p f hinv (fun hb => absurd hb hbest) ?_
      intro hgc
      exfalso
      unfold isRibbonCandidate meetsOf at hgc
      rw [hval] at hgc
      simp at hgc
    | some meets =>
      have hmeets : meetsOf f = meets := by
        unfold meetsOf
        rw [hval]
        rfl
      simp only []
      by_cases hne : meets.isEmpty = true
      · rw [if_pos hne]
        refine discoveryInv_extend_skip st p f hinv (fun hb => absurd hb hbest) ?_
        intro hgc
        exfalso
        unfold isRibbonCandidate at hgc
        rw [hbestf, hmeets, hne] at hgc
        exact Bool.noConfusion hgc
      · rw [if_neg hne]
        have hcand : isRibbonCandidate f = true := by
          unfold isRibbonCandidate
          rw [hbestf, hmeets]
          cases hq : meets.isEmpty
          · rfl
          · exact absurd hq hne
        cases hbf : st.black_ribbon_file with
        | none =>
          obtain ⟨hmnone, hnocand⟩ := hrb1 hbf
          rw [hmnone]
          simp only []
          unfold DiscoveryInv
          refine ⟨?_, hbt2, ?_, ?_, ?_⟩
          · intro g hg hgb
            rcases List.mem_append.mp hg with hg | hg
            · exact hbt1 g hg hgb
            · rw [List.mem_singleton] at hg
              subst hg
              exact absurd hgb hbest
          · intro f' hf'
            obtain ⟨hmem, hb, hm⟩ := hbt3 f' hf'
            exact ⟨List.mem_append_left _ hmem, hb, hm⟩
          · intro hnone
            exact Option.noConfusion hnone
          · intro f' hf'
            rw [Option.some.injEq] at hf'
            subst hf'
            refine ⟨hcand, by rw [hmeets], p.length, ?_, ?_, ?_, ?_⟩
            · rw [List.length_append]
              simp
            · exact List.getElem?_concat_length _ _
            · intro j g hj hjth hgc
              rw [List.getElem?_append_left hj] at hjth
              have hgmem : g ∈ p := List.getElem?_mem hjth
              rw [hnocand g hgmem] at hgc
              exact Bool.noConfusion hgc
            · intro j g hj hjth hgc
              rw [List.getElem?_eq_none (by
                rw [List.length_append]
                simp only [List.length_singleton]
                omega)] at hjth
              exact Option.noConfusion hjth
        | some fcur =>
          obtain ⟨hccur, hmcur, k', hk', hkth', hbefore', hafter'⟩ := hrb2 fcur hbf
          rw [hmcur]
          simp only []
          by_cases hmax : maxMeetKey (meetsOf fcur) < maxMeetKey meets
          · rw [if_pos hmax]
            unfold DiscoveryInv
            refine ⟨?_, hbt2, ?_, ?_, ?_⟩
            · intro g hg hgb
              rcases List.mem_append.mp hg with hg | hg
              · exact hbt1 g hg hgb
              · rw [List.mem_singleton] at hg
                subst hg
                exact absurd hgb hbest
            · intro f' hf'
              obtain ⟨hmem, hb, hm⟩ := hbt3 f' hf'
              exact ⟨List.mem_append_left _ hmem, hb, hm⟩
            · intro hnone
              exact Option.noConfusion hnone
            · intro f' hf'
              rw [Option.some.injEq] at hf'
              subst hf'
              refine ⟨hcand, by rw [hmeets], p.length, ?_, ?_, ?_, ?_⟩
              · rw [List.length_append]
                simp
              · exact List.getElem?_concat_length _ _
              · intro j g hj hjth hgc
                rw [List.getElem?_append_left hj] at hjth
                rw [hmeets]
                rcases lt_trichotomy j k' with hjk | hjk | hjk
                · exact lt_trans (hbefore' j g hjk hjth hgc) hmax
                · subst hjk
                  rw [hkth'] at hjth
                  rw [Option.some.injEq] at hjth
                  subst hjth
                  exact hmax
                · exact lt_of_le_of_lt (hafter' j g hjk hjth hgc) hmax
              · intro j g hj hjth hgc
                rw [List.getElem?_eq_none (by
                  rw [List.length_append]
                  simp only [List.length_singleton]
                  omega)] at hjth
                exact Option.noConfusion hjth
          · rw [if_neg hmax]
            refine discoveryInv_extend_skip st p f hinv (fun hb => absurd hb hbest) ?_
            intro _
            refine ⟨fcur, hbf, ?_⟩
            rw [hmeets]
            exact le_of_not_lt hmax

theorem discover_fold_inv : ∀ (files : List CsvFile) (st : DiscoveryState)
    (p : List CsvFile), DiscoveryInv st p →
    DiscoveryInv (files.foldl discoverStep st) (p ++ files)
  | [], st, p, h => by simpa using h
  | f :: fs, st, p, h => by
    rw [List.foldl_cons]
    have hstep := discoverStep_inv st p h f
    have hrec := discover_fold_inv fs (discoverStep st f) (p ++ [f]) hstep
    rw [List.append_assoc] at hrec
    exact hrec

/-- C6: the discovery loop selects, among the exact-schema best-times files,
one with the greatest modification time; the selected report-card file is a
valid candidate (repeating-block schema, non-empty meet directory) whose
maximum meet index strictly exceeds that of every candidate scanned before
it; and a file that fails both classifications leaves the accumulators
untouched. -/
theorem discovery_spec (files : List CsvFile) :
    (∀ f, (discover files).best_times_file = some f →
      f ∈ files ∧ is_best_times_file f = true ∧
      ∀ g ∈ files, is_best_times_file g = true → g.mtime ≤ f.mtime)
  ∧ (∀ f, (discover files).black_ribbon_file = some f →
      isRibbonCandidate f = true ∧
      (discover files).black_ribbon_meets = some (meetsOf f) ∧
      ∃ k, k < files.length ∧ files[k]? = some f ∧
        ∀ j g, j < k → files[j]? = some g → isRibbonCandidate g = true →
          maxMeetKey (meetsOf g) < maxMeetKey (meetsOf f))
  ∧ (∀ st f, is_best_times_file f = false → isRibbonCandidate f = false →
      discoverStep st f = st) := by
  have h0 : DiscoveryInv initDiscovery [] := by
    unfold DiscoveryInv
    refine ⟨by simp, fun _ => rfl, ?_, fun _ => ⟨rfl, by simp⟩, ?_⟩
    · intro f hf
      exact Option.noConfusion hf
    · intro f hf
      exact Option.noConfusion hf
  have hinv : DiscoveryInv (discover files) files := by
    have hrec := discover_fold_inv files initDiscovery [] h0
    simpa using hrec
  unfold DiscoveryInv at hinv
  obtain ⟨hbt1, hbt2, hbt3, hrb1, hrb2⟩ := hinv
  refine ⟨?_, ?_, ?_⟩
  · intro f hf
    obtain ⟨hmem, hb, hm⟩ := hbt3 f hf
    refine ⟨hmem, hb, ?_⟩
    intro g hg hgb
    rw [hm]
    exact hbt1 g hg hgb
  · intro f hf
    obtain ⟨hc, hm, k, hk, hkth, hbefore, _⟩ := hrb2 f hf
    exact ⟨hc, hm, k, hk, hkth, hbefore⟩
  · intro st f hb hc
    unfold discoverStep
    rw [if_neg (by simp [hb])]
    cases hval : validate_black_ribbon_file f with
    | none => rfl
    | some meets =>
      have hmeets : meetsOf f = meets := by
        unfold meetsOf
        rw [hval]
        rfl
      have hne : meets.isEmpty = true := by
        unfold isRibbonCandidate at hc
        rw [hb, hmeets] at hc
        simpa using hc
      simp only []
      rw [if_pos hne]

/-- The concrete best-times file used in the C6 witness. -/
def btFile : CsvFile := ⟨ExpectedColumns, [], 5⟩

/-- Witness for C6: discovery over a directory holding one valid best-times
file selects that file as the most recent exact-schema match. -/
theorem discovery_spec_witness :
    btFile ∈ [btFile] ∧ is_best_times_file btFile = true ∧
      ∀ g ∈ [btFile], is_best_times_file g = true → g.mtime ≤ btFile.mtime :=
  (discovery_spec [btFile]).1 btFile (by rfl)

/-! ## gen_best_times.py: page layout engine

The PDF cursor state of `gen_formatted_report` is threaded explicitly and
every drawn text cell is emitted as a `LayoutItem` carrying the page,
column and vertical offset it was placed at. -/

def _TopEdge : ℚ := 30
def _BottomEdge : ℚ := 260
def _AgeGroupHeight : ℚ := 8
def _EventHeight : ℚ := 5
def _SwimmerHeight : ℚ := 7/2
def _AgeGroupPad : ℚ := 3
def _EventPad : ℚ := 2

/-- A text placement emitted by the layout engine: what was drawn, on which
page (0-based), in which column, at which vertical offset. -/
inductive LayoutItem where
  | ageHeader (agIdx : ℕ) (page col : ℕ) (y : ℚ)
  | contHeader (agIdx : ℕ) (page col : ℕ) (y : ℚ)
  | eventHeader (agIdx evIdx : ℕ) (page col : ℕ) (y : ℚ)
  | swimmerRow (agIdx evIdx rowIdx : ℕ) (page col : ℕ) (y : ℚ)
deriving DecidableEq

/-- The layout cursor: page index, column index `c`, vertical offset `y`
(the horizontal offset `x` is always `_LeftEdge + c * w_col`). -/
structure Cursor where
  page : ℕ
  col : ℕ
  y : ℚ
deriving DecidableEq

/-- The event block an item belongs to, when it is part of one. -/
def itemBlock : LayoutItem → Option (ℕ × ℕ)
  | LayoutItem.eventHeader a e _ _ _ => some (a, e)
  | LayoutItem.swimmerRow a e _ _ _ _ => some (a, e)
  | _ => none

def itemPos : LayoutItem → ℕ × ℕ
  | LayoutItem.ageHeader _ p c _ => (p, c)
  | LayoutItem.contHeader _ p c _ => (p, c)
  | LayoutItem.eventHeader _ _ p c _ => (p, c)
  | LayoutItem.swimmerRow _ _ _ p c _ => (p, c)

/-- The inner `for name, time, _ in swimmers` loop: each swimmer row advances
only the vertical offset — never the column or page. -/
def emitSwimmerRows (agIdx evIdx : ℕ) : ℕ → ℕ → Cursor →
    List LayoutItem × Cursor
  | 0, _, st => ([], st)
  | n + 1, rowIdx, st =>
    let rest := emitSwimmerRows agIdx evIdx n (rowIdx + 1)
      ⟨st.page, st.col, st.y + _SwimmerHeight⟩
    (LayoutItem.swimmerRow agIdx evIdx rowIdx st.page st.col st.y :: rest.1,
     rest.2)

/-- The event-level break check (`if y + required_height > _BottomEdge`):
advance to the next column, or to a new page with a continuation header when
the three columns are used up (`if c > 2` after `c += 1`). -/
def eventBreak (agIdx : ℕ) (st : Cursor) (required : ℚ) :
    Cursor × List LayoutItem :=
  if _BottomEdge < st.y + required then
    if 2 < st.col + 1 then
      (⟨st.page + 1, 0, _TopEdge + _AgeGroupHeight⟩,
        [LayoutItem.contHeader agIdx (st.page + 1) 0 _TopEdge])
    else (⟨st.page, st.col + 1, _TopEdge⟩, [])
  else (st, [])

/-- One `(event, swimmers)` block of `gen_formatted_report`: break decision
first, then the event header and every row, then the event pad. -/
def placeEvent (agIdx evIdx : ℕ) (st : Cursor) (nswimmers : ℕ) :
    List LayoutItem × Cursor :=
  let brk := eventBreak agIdx st
    (_EventHeight + _EventPad + nswimmers * _SwimmerHeight)
  let rows := emitSwimmerRows agIdx evIdx nswimmers 0
    ⟨brk.1.page, brk.1.col, brk.1.y + _EventHeight⟩
  (brk.2 ++
     LayoutItem.eventHeader agIdx evIdx brk.1.page brk.1.col brk.1.y :: rows.1,
   ⟨rows.2.page, rows.2.col, rows.2.y + _EventPad⟩)

def placeEvents (agIdx : ℕ) : ℕ → Cursor → List (String × List Entry) →
    List LayoutItem × Cursor
  | _, st, [] => ([], st)
  | evIdx, st, (_, swimmers) :: rest =>
    let hd := placeEvent agIdx evIdx st swimmers.length
    let tl := placeEvents agIdx (evIdx + 1) hd.2 rest
    (hd.1 ++ tl.1, tl.2)

/-- One age group of `gen_formatted_report`: the age-group-level break check
uses only the first event's row count, then the age-group header and the
events, then the age-group pad. -/
def placeAgeGroup (agIdx : ℕ) (st : Cursor)
    (events : List (String × List Entry)) : List LayoutItem × Cursor :=
  let nswimmers := ((events.headD ("", [])).2).length
  let st1 :=
    if _BottomEdge < st.y + (_AgeGroupHeight + _EventHeight + _EventPad +
        nswimmers * _SwimmerHeight) then
      if 2 < st.col + 1 then (⟨st.page + 1, 0, _TopEdge⟩ : Cursor)
      else ⟨st.page, st.col + 1, _TopEdge⟩
    else st
  let body := placeEvents agIdx 0 ⟨st1.page, st1.col, st1.y + _AgeGroupHeight⟩
    events
  (LayoutItem.ageHeader agIdx st1.page st1.col st1.y :: body.1,
   ⟨body.2.page, body.2.col, body.2.y + _AgeGroupPad⟩)

def placeAgeGroups : ℕ → Cursor → List (String × List (String × List Entry)) →
    List LayoutItem × Cursor
  | _, st, [] => ([], st)
  | agIdx, st, (_, events) :: rest =>
    let hd := placeAgeGroup agIdx st events
    let tl := placeAgeGroups (agIdx + 1) hd.2 rest
    (hd.1 ++ tl.1, tl.2)

/-- The layout trace of `gen_formatted_report` (initial page after
`add_page`, cursor at column 0 and `_TopEdge`). -/
def gen_formatted_report (data : List (String × List (String × List Entry))) :
    List LayoutItem :=
  (placeAgeGroups 0 ⟨0, 0, _TopEdge⟩ data).1

theorem emitSwimmerRows_spec (a e : ℕ) : ∀ (n rowIdx : ℕ) (st : Cursor),
    ∀ item ∈ (emitSwimmerRows a e n rowIdx st).1,
      itemBlock item = some (a, e) ∧ itemPos item = (st.page, st.col)
  | 0, rowIdx, st => by
    intro item hitem
    simp [emitSwimmerRows] at hitem
  | n + 1, rowIdx, st => by
    intro item hitem
    simp only [emitSwimmerRows] at hitem
    rcases List.mem_cons.mp hitem with hq | hq
    · subst hq
      exact ⟨rfl, rfl⟩
    · exact emitSwimmerRows_spec a e n (rowIdx + 1)
        ⟨st.page, st.col, st.y + _SwimmerHeight⟩ item hq

theorem eventBreak_items (a : ℕ) (st : Cursor) (r : ℚ) :
    ∀ item ∈ (eventBreak a st r).2, itemBlock item = none := by
  unfold eventBreak
  split
  · split
    · intro item hitem
      rw [List.mem_singleton] at hitem
      subst hitem
      rfl
    · intro item hitem
      simp at hitem
  · intro item hitem
    simp at hitem

theorem placeEvent_spec (a e : ℕ) (st : Cursor) (n : ℕ) :
    ∀ item ∈ (placeEvent a e st n).1, ∀ b, itemBlock item = some b →
      b = (a, e) ∧ itemPos item =
        ((eventBreak a st (_EventHeight + _EventPad + n * _SwimmerHeight)).1.page,
         (eventBreak a st (_EventHeight + _EventPad + n * _SwimmerHeight)).1.col) := by
  intro item hitem b hb
  unfold placeEvent at hitem
  simp only [] at hitem
  rcases List.mem_append.mp hitem with hq | hq
  · rw [eventBreak_items a st _ item hq] at hb
    exact Option.noConfusion hb
  · rcases List.mem_cons.mp hq with hq | hq
    · subst hq
      have hbeq : (a, e) = b := by
        have : some (a, e) = some b := hb
        exact Option.some.inj this
      exact ⟨hbeq.symm, rfl⟩
    · have hrow := emitSwimmerRows_spec a e n 0 _ item hq
      rw [hrow.1] at hb
      have hbeq : (a, e) = b := Option.some.inj hb
      exact ⟨hbeq.symm, hrow.2⟩

theorem placeEvents_spec (a : ℕ) : ∀ (evs : List (String × List Entry))
    (k : ℕ) (st : Cursor),
    (∀ item ∈ (placeEvents a k st evs).1, ∀ b, itemBlock item = some b →
      b.1 = a ∧ k ≤ b.2 ∧ b.2 < k + evs.length)
  ∧ (∀ i ∈ (placeEvents a k st evs).1, ∀ j ∈ (placeEvents a k st evs).1,
      ∀ b, itemBlock i = some b → itemBlock j = some b → itemPos i = itemPos j)
  | [], k, st => by
    constructor
    · intro item hitem
      simp [placeEvents] at hitem
    · intro i hi
      simp [placeEvents] at hi
  | (ev, swimmers) :: rest, k, st => by
    have ihead := placeEvent_spec a k st swimmers.length
    have itail := placeEvents_spec a rest (k + 1)
      (placeEvent a k st swimmers.length).2
    constructor
    · intro item hitem b hb
      simp only [placeEvents] at hitem
      rcases List.mem_append.mp hitem with hq | hq
      · obtain ⟨hbeq, _⟩ := ihead item hq b hb
        subst hbeq
        refine ⟨rfl, le_refl k, ?_⟩
        simp only [List.length_cons]
        omega
      · obtain ⟨h1, h2, h3⟩ := (itail.1) item hq b hb
        refine ⟨h1, by omega, ?_⟩
        simp only [List.length_cons] at h3 ⊢
        omega
    · intro i hi j hj b hbi hbj
      simp only [placeEvents] at hi hj
      rcases List.mem_append.mp hi with hqi | hqi <;>
        rcases List.mem_append.mp hj with hqj | hqj
      · obtain ⟨_, hpi⟩ := ihead i hqi b hbi
        obtain ⟨_, hpj⟩ := ihead j hqj b hbj
        rw [hpi, hpj]
      · obtain ⟨hbeq, _⟩ := ihead i hqi b hbi
        obtain ⟨_, hk2, _⟩ := (itail.1) j hqj b hbj
        subst hbeq
        omega
      · obtain ⟨hbeq, _⟩ := ihead j hqj b hbj
        obtain ⟨_, hk2, _⟩ := (itail.1) i hqi b hbi
        subst hbeq
        omega
      · exact (itail.2) i hqi j hqj b hbi hbj

theorem placeAgeGroup_spec (a : ℕ) (st : Cursor)
    (events : List (String × List Entry)) :
    (∀ item ∈ (placeAgeGroup a st events).1, ∀ b, itemBlock item = some b →
      b.1 = a)
  ∧ (∀ i ∈ (placeAgeGroup a st events).1, ∀ j ∈ (placeAgeGroup a st events).1,
      ∀ b, itemBlock i = some b → itemBlock j = some b →
        itemPos i = itemPos j) := by
  constructor
  · intro item hitem b hb
    simp only [placeAgeGroup] at hitem
    rcases List.mem_cons.mp hitem with hq | hq
    · subst hq
      exact Option.noConfusion hb
    · exact ((placeEvents_spec a events 0 _).1 item hq b hb).1
  · intro i hi j hj b hbi hbj
    simp only [placeAgeGroup] at hi hj
    rcases List.mem_cons.mp hi with hqi | hqi
    · subst hqi
      exact Option.noConfusion hbi
    · rcases List.mem_cons.mp hj with hqj | hqj
      · subst hqj
        exact Option.noConfusion hbj
      · exact (placeEvents_spec a events 0 _).2 i hqi j hqj b hbi hbj

theorem placeAgeGroups_spec : ∀ (data : List (String ×
      List (String × List Entry))) (k : ℕ) (st : Cursor),
    (∀ item ∈ (placeAgeGroups k st data).1, ∀ b, itemBlock item = some b →
      k ≤ b.1 ∧ b.1 < k + data.length)
  ∧ (∀ i ∈ (placeAgeGroups k st data).1, ∀ j ∈ (placeAgeGroups k st data).1,
      ∀ b, itemBlock i = some b → itemBlock j = some b →
        itemPos i = itemPos j)
  | [], k, st => by
    constructor
    · intro item hitem
      simp [placeAgeGroups] at hitem
    · intro i hi
      simp [placeAgeGroups] at hi
  | (ag, events) :: rest, k, st => by
    have ihead := placeAgeGroup_spec k st events
    have itail := placeAgeGroups_spec rest (k + 1) (placeAgeGroup k st events).2
    constructor
    · intro item hitem b hb
      simp only [placeAgeGroups] at hitem
      rcases List.mem_append.mp hitem with hq | hq
      · have h1 := ihead.1 item hq b hb
        subst h1
        refine ⟨le_refl _, ?_⟩
        simp only [List.length_cons]
        omega
      · obtain ⟨h1, h2⟩ := (itail.1) item hq b hb
        refine ⟨by omega, ?_⟩
        simp only [List.length_cons] at h2 ⊢
        omega
    · intro i hi j hj b hbi hbj
      simp only [placeAgeGroups] at hi hj
      rcases List.mem_append.mp hi with hqi | hqi <;>
        rcases List.mem_append.mp hj with hqj | hqj
      · exact ihead.2 i hqi j hqj b hbi hbj
      · have h1 := ihead.1 i hqi b hbi
        obtain ⟨h2, _⟩ := (itail.1) j hqj b hbj
        omega
      · have h1 := ihead.1 j hqj b hbj
        obtain ⟨h2, _⟩ := (itail.1) i hqi b hbi
        omega
      · exact (itail.2) i hqi j hqj b hbi hbj

/-- C2: an event block is never split across columns — any two placements
belonging to the same (age group, event) block in the layout trace (the
event header and each of its swimmer rows) carry the same page and the same
column, for every input, including blocks taller than one column. -/
theorem event_blocks_not_split
    (data : List (String × List (String × List Entry)))
    (i j : LayoutItem) (b : ℕ × ℕ)
    (hi : i ∈ gen_formatted_report data) (hj : j ∈ gen_formatted_report data)
    (hbi : itemBlock i = some b) (hbj : itemBlock j = some b) :
    itemPos i = itemPos j := by
  unfold gen_formatted_report at hi hj
  exact (placeAgeGroups_spec data 0 ⟨0, 0, _TopEdge⟩).2 i hi j hj b hbi hbj

/-- Concrete one-block report used as the C2 witness input: one age group
with one event holding two swimmers. -/
def witnessReport : List (String × List (String × List Entry)) :=
  [("Girls 8 & Under",
    [("25 Freestyle", [("A A (8)", 30, "6/1"), ("B B (8)", 31, "6/8")])])]

theorem witnessReport_trace :
    gen_formatted_report witnessReport =
      [LayoutItem.ageHeader 0 0 0 30,
       LayoutItem.eventHeader 0 0 0 0 38,
       LayoutItem.swimmerRow 0 0 0 0 0 43,
       LayoutItem.swimmerRow 0 0 1 0 0 (93/2)] := by
  unfold gen_formatted_report witnessReport
  norm_num [placeAgeGroups, placeAgeGroup, placeEvents, placeEvent,
    eventBreak, emitSwimmerRows, _TopEdge, _BottomEdge, _AgeGroupHeight,
    _EventHeight, _EventPad, _SwimmerHeight, _AgeGroupPad]

/-- Witness for C2: in the concrete trace the event header and the block's
last swimmer row share page 0 and column 0. -/
theorem event_blocks_not_split_witness :
    itemPos (LayoutItem.eventHeader 0 0 0 0 38) =
      itemPos (LayoutItem.swimmerRow 0 0 1 0 0 (93/2)) :=
  event_blocks_not_split witnessReport
    (LayoutItem.eventHeader 0 0 0 0 38)
    (LayoutItem.swimmerRow 0 0 1 0 0 (93/2)) (0, 0)
    (by rw [witnessReport_trace]; simp)
    (by rw [witnessReport_trace]; simp)
    rfl rfl

end FHST
